import Mathlib

/-!
UUltraAssetManager: the weighted startup-job sequence.

Shallow embedding of `UUltraAssetManager::DoAllStartupJobs`
(`Source/UltraGame/System/UltraAssetManager.cpp`, lines 201-254).

* Calls that leave the function (a job's work callback being entered, the
  progress sink `UpdateInitialGameContentLoadPercent` being invoked) are
  recorded, in order, in a list of `Call`s.
* A job callback that fails is an abort propagating out of `DoAllStartupJobs`:
  statements after the failing call are not executed.
* The lines are embedded twice. In `UltraAssetManager`, `float` weights and
  progress values are taken as exact numbers (rationals), and the result of a
  division is `none` when the divisor is zero and `some q` otherwise: this is
  the reading of the properties that speak of exact numbers, of the order of
  the calls and of the job list. In `AssetManagerBinary32`, further down, they
  are IEEE 754 binary32 values, rounded after every operation: this is the
  embedding for the properties about the values the sink really receives.
-/

namespace UltraAssetManager

/-- Result of the float division `A / B` over exact numbers: `none` when the
divisor is zero. -/
def FloatDiv (A B : ℚ) : Option ℚ :=
  if B = 0 then none else some (A / B)

/-- Modelled from the spec: `FMath::Clamp` (engine code, not under src/), the
`clamp(p,0,1)` of step 4a: `Max(Min(X, MaxValue), MinValue)`. -/
def Clamp (X MinValue MaxValue : ℚ) : ℚ :=
  max (min X MaxValue) MinValue

/-- Observable calls made during a run, in order. -/
inductive Call where
  -- the work callback (`JobFunc`) of the job with this name is entered
  | JobFunc (JobName : String)
  -- the progress sink is invoked with this value
  | UpdateInitialGameContentLoadPercent (GameContentPercent : Option ℚ)
  deriving DecidableEq, Repr

/-- The lambda bound to `SubstepProgressDelegate` at lines 228-234, given by
its captures `[AccumulatedJobValue, JobValue, TotalJobValue]`. -/
structure SubstepProgressLambda where
  AccumulatedJobValue : ℚ
  JobValue : ℚ
  TotalJobValue : ℚ
  deriving DecidableEq, Repr

/-- Body of the bound lambda (lines 230-233): the sink call it makes when
invoked with `NewProgress`. -/
def SubstepProgressLambda.Execute (L : SubstepProgressLambda) (NewProgress : ℚ) : Call :=
  let SubstepAdjustment := Clamp NewProgress 0 1 * L.JobValue
  let OverallPercentWithSubstep :=
    FloatDiv (L.AccumulatedJobValue + SubstepAdjustment) L.TotalJobValue
  Call.UpdateInitialGameContentLoadPercent OverallPercentWithSubstep

/-- Modelled from the spec: the work callback of a job (type `JobFunc` of
System/UltraAssetManagerStartupJob.h, not under src/), by what the runner can
observe of it: the values it passes to its sub-progress callback while
executing, in order (step 4b), and whether it then fails instead of returning
(the error conditions of section 4.1). -/
structure JobWork where
  Substeps : List ℚ
  Fails : Bool
  deriving DecidableEq, Repr

/-- Modelled from the spec: the struct `FUltraAssetManagerStartupJob`
(System/UltraAssetManagerStartupJob.h, not under src/), with the fields that
lines 30 and 201-254 use: name, work callback and weight (the Job of section
3), and the sub-progress delegate that lines 228 and 238 bind and unbind in
place; `none` is an unbound delegate. -/
structure FUltraAssetManagerStartupJob where
  JobName : String
  JobFunc : JobWork
  JobWeight : ℚ
  SubstepProgressDelegate : Option SubstepProgressLambda
  deriving DecidableEq, Repr

/-- The job that `STARTUP_JOB_WEIGHTED(JobFunc, JobWeight)` (line 30) appends to
`StartupJobs`: a job constructed from name, callback and weight, whose delegate
nothing has bound yet. -/
def STARTUP_JOB_WEIGHTED (JobName : String) (JobFunc : JobWork) (JobWeight : ℚ) :
    FUltraAssetManagerStartupJob :=
  { JobName := JobName, JobFunc := JobFunc, JobWeight := JobWeight,
    SubstepProgressDelegate := none }

/-- The job that `STARTUP_JOB(JobFunc)` (line 31) appends: weight `1.f`. -/
def STARTUP_JOB (JobName : String) (JobFunc : JobWork) : FUltraAssetManagerStartupJob :=
  STARTUP_JOB_WEIGHTED JobName JobFunc 1

/-- Modelled from the spec: `FUltraAssetManagerStartupJob::DoJob`
(System/UltraAssetManagerStartupJob.h/.cpp, not under src/). Step 4b: the work
callback is executed synchronously and may call the sub-progress callback any
number of times; a call reaches the bound lambda only while the delegate is
bound. Returns the calls made and whether the job returned normally. -/
def FUltraAssetManagerStartupJob.DoJob (StartupJob : FUltraAssetManagerStartupJob) :
    List Call × Bool :=
  let Substeps : List Call :=
    match StartupJob.SubstepProgressDelegate with
    | none => []
    | some L => StartupJob.JobFunc.Substeps.map L.Execute
  (Call.JobFunc StartupJob.JobName :: Substeps, !StartupJob.JobFunc.Fails)

/-- The part of the asset manager that `DoAllStartupJobs` reads and writes. -/
structure UUltraAssetManager where
  StartupJobs : List FUltraAssetManagerStartupJob
  deriving DecidableEq, Repr

/-- What one call of `DoAllStartupJobs` leaves behind: the manager afterwards,
the calls made in order, and whether the function returned (`false`: a job
failed and the failure propagated to the caller). -/
structure Run where
  This : UUltraAssetManager
  Calls : List Call
  Returned : Bool
  deriving DecidableEq, Repr

/-- The dedicated-server loop, lines 209-212: the calls made and whether every
job returned. -/
def ServerLoop : List FUltraAssetManagerStartupJob → List Call × Bool
  | [] => ([], true)
  | StartupJob :: Rest =>
    let R := StartupJob.DoJob
    if R.2 then
      let R2 := ServerLoop Rest
      (R.1 ++ R2.1, R2.2)
    else (R.1, false)

/-- The total of lines 218-222. -/
def TotalJobValue (StartupJobs : List FUltraAssetManagerStartupJob) : ℚ :=
  StartupJobs.foldl (fun Total StartupJob => Total + StartupJob.JobWeight) 0

/-- The progress loop, lines 224-243, from a given `AccumulatedJobValue` over
the jobs still to run: the jobs as the loop leaves them, the calls made, and
whether every job returned. -/
def ProgressLoop (TotalJobValue : ℚ) :
    List FUltraAssetManagerStartupJob → ℚ →
      List FUltraAssetManagerStartupJob × List Call × Bool
  | [], _ => ([], [], true)
  | StartupJob :: Rest, AccumulatedJobValue =>
    let JobValue := StartupJob.JobWeight
    let Bound : FUltraAssetManagerStartupJob :=
      { StartupJob with
        SubstepProgressDelegate :=
          some { AccumulatedJobValue := AccumulatedJobValue, JobValue := JobValue,
                 TotalJobValue := TotalJobValue } }
    let R := Bound.DoJob
    if R.2 then
      let Unbound : FUltraAssetManagerStartupJob :=
        { Bound with SubstepProgressDelegate := none }
      let Accumulated := AccumulatedJobValue + JobValue
      let R2 := ProgressLoop TotalJobValue Rest Accumulated
      (Unbound :: R2.1,
        R.1 ++ Call.UpdateInitialGameContentLoadPercent (FloatDiv Accumulated TotalJobValue)
          :: R2.2.1,
        R2.2.2)
    else (Bound :: Rest, R.1, false)

/-- `UUltraAssetManager::DoAllStartupJobs`, lines 201-254. -/
def DoAllStartupJobs (IsRunningDedicatedServer : Bool) (This : UUltraAssetManager) : Run :=
  if IsRunningDedicatedServer then
    let R := ServerLoop This.StartupJobs
    if R.2 then { This := { StartupJobs := [] }, Calls := R.1, Returned := true }
    else { This := This, Calls := R.1, Returned := false }
  else if This.StartupJobs.length > 0 then
    let Total := TotalJobValue This.StartupJobs
    let R := ProgressLoop Total This.StartupJobs 0
    if R.2.2 then { This := { StartupJobs := [] }, Calls := R.2.1, Returned := true }
    else { This := { StartupJobs := R.1 }, Calls := R.2.1, Returned := false }
  else
    { This := { StartupJobs := [] },
      Calls := [Call.UpdateInitialGameContentLoadPercent (some 1)],
      Returned := true }

/-- The values the progress sink received, in order. -/
def ProgressReports : List Call → List (Option ℚ)
  | [] => []
  | Call.UpdateInitialGameContentLoadPercent P :: Rest => P :: ProgressReports Rest
  | Call.JobFunc _ :: Rest => ProgressReports Rest

/-- The names of the jobs whose work callback was entered, in order. -/
def JobsExecuted : List Call → List String
  | [] => []
  | Call.JobFunc N :: Rest => N :: JobsExecuted Rest
  | Call.UpdateInitialGameContentLoadPercent _ :: Rest => JobsExecuted Rest


end UltraAssetManager

/-!
UUltraSettingKeyboardInput: rebinding a key.

Shallow embedding of `UUltraSettingKeyboardInput::ChangeBinding`
(`Source/UltraGame/Settings/CustomSettings/UltraSettingKeyboardInput.cpp`,
lines 102-142). The calls it makes on its collaborators (the local settings,
the setting-changed notification, the `ensureMsgf` report) are recorded in
order; a `CastChecked` that fails stops the function without a return value.
-/

namespace UltraSettingKeyboardInput

/-- An engine name; `NAME_None` is the name `None`. -/
abbrev FName := String

/-- The engine's empty name. -/
def NAME_None : FName := "None"

/-- An engine key: keys are equal when their names are. -/
structure FKey where
  KeyName : FName
  deriving DecidableEq, Repr

/-- The part of the engine struct `FPlayerMappableKeyOptions` the file reads. -/
structure FPlayerMappableKeyOptions where
  Name : FName
  DisplayName : String
  deriving DecidableEq, Repr

/-- The part of the engine struct `FEnhancedActionKeyMapping` the file reads
and writes. -/
structure FEnhancedActionKeyMapping where
  PlayerMappableOptions : FPlayerMappableKeyOptions
  Key : FKey
  deriving DecidableEq, Repr

/-- Modelled from the spec: the struct `FKeyboardOption`
(UltraSettingKeyboardInput.h, not under src/), with the members lines 15-31 and
47-142 use; the owning config is given by its name, `none` for a null pointer. -/
structure FKeyboardOption where
  InputMapping : FEnhancedActionKeyMapping
  OwningConfig : Option String
  InitialMapping : FKey
  deriving DecidableEq, Repr

/-- What the `LocalPlayer` pointer of the setting points to. -/
inductive ULocalPlayer where
  | Null
  | OtherLocalPlayer
  | UltraLocalPlayer
  deriving DecidableEq, Repr

/-- Modelled from the spec: the members of `UUltraSettingKeyboardInput`
(UltraSettingKeyboardInput.h, not under src/) that `ChangeBinding` uses. -/
structure UUltraSettingKeyboardInput where
  FirstMappableOption : FKeyboardOption
  SecondaryMappableOption : FKeyboardOption
  LocalPlayer : ULocalPlayer
  deriving DecidableEq, Repr

/-- Calls `ChangeBinding` makes on its collaborators. -/
inductive KeyboardCall where
  -- LocalSettings->AddOrUpdateCustomKeyboardBindings(MappingName, NewKey, UltraLocalPlayer)
  | AddOrUpdateCustomKeyboardBindings (MappingName : FName) (NewKey : FKey)
  -- ensureMsgf(false, Msg)
  | ensureMsgf (Msg : String)
  -- NotifySettingChanged(EGameSettingChangeReason::Change)
  | NotifySettingChanged
  deriving DecidableEq, Repr

/-- What a call of `ChangeBinding` that returns leaves behind: the value
returned, the setting afterwards and the calls made, in order. -/
structure ChangeBindingResult where
  ReturnValue : Bool
  This : UUltraSettingKeyboardInput
  Calls : List KeyboardCall
  deriving DecidableEq, Repr

/-- `UUltraSettingKeyboardInput::ChangeBinding`, lines 102-142; the engine's
`FKey::IsGamepadKey` is a parameter. `none`: the `CastChecked` of line 112
failed. -/
def ChangeBinding (IsGamepadKey : FKey → Bool) (This : UUltraSettingKeyboardInput)
    (InKeyBindSlot : Int) (NewKey : FKey) : Option ChangeBindingResult :=
  if (InKeyBindSlot = 0 ∧ This.FirstMappableOption.InputMapping.Key = NewKey) ∨
      (InKeyBindSlot = 1 ∧ This.SecondaryMappableOption.InputMapping.Key = NewKey) then
    some { ReturnValue := false, This := This, Calls := [] }
  else if !IsGamepadKey NewKey then
    match This.LocalPlayer with
    | ULocalPlayer.UltraLocalPlayer =>
      if InKeyBindSlot = 0 then
        let First := This.FirstMappableOption
        some { ReturnValue := true,
               This := { This with
                 FirstMappableOption :=
                   { First with InputMapping := { First.InputMapping with Key := NewKey } } },
               Calls := [KeyboardCall.AddOrUpdateCustomKeyboardBindings
                           First.InputMapping.PlayerMappableOptions.Name NewKey,
                         KeyboardCall.NotifySettingChanged] }
      else if InKeyBindSlot = 1 then
        let Secondary :=
          if This.SecondaryMappableOption.InputMapping.PlayerMappableOptions.Name = NAME_None
          then This.FirstMappableOption
          else This.SecondaryMappableOption
        some { ReturnValue := true,
               This := { This with
                 SecondaryMappableOption :=
                   { Secondary with
                     InputMapping := { Secondary.InputMapping with Key := NewKey } } },
               Calls := [KeyboardCall.AddOrUpdateCustomKeyboardBindings
                           Secondary.InputMapping.PlayerMappableOptions.Name NewKey,
                         KeyboardCall.NotifySettingChanged] }
      else
        some { ReturnValue := true, This := This,
               Calls := [KeyboardCall.ensureMsgf "Invalid key bind slot provided!",
                         KeyboardCall.NotifySettingChanged] }
    | _ => none
  else
    some { ReturnValue := false, This := This, Calls := [] }

end UltraSettingKeyboardInput

/-!
UUltraAssetManager: the startup-job sequence in `float` arithmetic.

The embedding above takes weights and progress values as exact numbers. The
one below embeds the same lines (30-31 and 201-254) with `float` as IEEE 754
binary32 under round-to-nearest-even, every operation rounded on its own (no
extended precision, no fused multiply-add), for the properties about the
values the progress sink really receives. The two zeros are one value: the
only divisor in these lines is `TotalJobValue`, a sum started at `0.0f`, which
rounding to nearest never makes a negative zero, so the sign of a zero changes
no value computed here.
-/

namespace AssetManagerBinary32

/-- A `float`: a finite value (a rational on the binary32 grid), an infinity
or a NaN. -/
inductive F32 where
  | Finite (q : ℚ)
  | PosInf
  | NegInf
  | NaN
  deriving DecidableEq, Repr

/-- The largest finite `float`, `FLT_MAX` = (2^24 - 1) * 2^104. -/
def MaxFloat : ℚ := (2 ^ 24 - 1) * 2 ^ 104

/-- The binary exponent a number is rounded at: that of the power of two at or
below its magnitude, and -126 in the subnormal range. -/
def Exponent (q : ℚ) : ℤ := max (Int.log 2 |q|) (-126)

/-- The integer nearest to `r`, the even one of the two when `r` is halfway. -/
def RoundHalfEven (r : ℚ) : ℤ :=
  if r - ⌊r⌋ < 1 / 2 then ⌊r⌋
  else if 1 / 2 < r - ⌊r⌋ then ⌊r⌋ + 1
  else if ⌊r⌋ % 2 = 0 then ⌊r⌋ else ⌊r⌋ + 1

/-- The number `q` rounded to 24 significant bits (to a multiple of 2^-149 in
the subnormal range), exponent unbounded above. -/
def RoundQ (q : ℚ) : ℚ :=
  RoundHalfEven (q / 2 ^ (Exponent q - 23)) * 2 ^ (Exponent q - 23)

/-- The `float` nearest to `q`; an infinity when the rounded value exceeds
`FLT_MAX` in magnitude. -/
def Round (q : ℚ) : F32 :=
  if MaxFloat < RoundQ q then F32.PosInf
  else if RoundQ q < -MaxFloat then F32.NegInf
  else F32.Finite (RoundQ q)

/-- The `float` sum `A + B`. -/
def F32.Add : F32 → F32 → F32
  | F32.NaN, _ => F32.NaN
  | _, F32.NaN => F32.NaN
  | F32.PosInf, F32.NegInf => F32.NaN
  | F32.NegInf, F32.PosInf => F32.NaN
  | F32.PosInf, _ => F32.PosInf
  | _, F32.PosInf => F32.PosInf
  | F32.NegInf, _ => F32.NegInf
  | _, F32.NegInf => F32.NegInf
  | F32.Finite a, F32.Finite b => Round (a + b)

/-- The `float` product `A * B`. -/
def F32.Mul : F32 → F32 → F32
  | F32.NaN, _ => F32.NaN
  | _, F32.NaN => F32.NaN
  | F32.Finite a, F32.Finite b => Round (a * b)
  | F32.Finite a, F32.PosInf =>
    if a = 0 then F32.NaN else if 0 < a then F32.PosInf else F32.NegInf
  | F32.Finite a, F32.NegInf =>
    if a = 0 then F32.NaN else if 0 < a then F32.NegInf else F32.PosInf
  | F32.PosInf, F32.Finite b =>
    if b = 0 then F32.NaN else if 0 < b then F32.PosInf else F32.NegInf
  | F32.NegInf, F32.Finite b =>
    if b = 0 then F32.NaN else if 0 < b then F32.NegInf else F32.PosInf
  | F32.PosInf, F32.PosInf => F32.PosInf
  | F32.NegInf, F32.NegInf => F32.PosInf
  | F32.PosInf, F32.NegInf => F32.NegInf
  | F32.NegInf, F32.PosInf => F32.NegInf

/-- The `float` quotient `A / B`; a zero divisor is the positive zero. -/
def F32.Div : F32 → F32 → F32
  | F32.NaN, _ => F32.NaN
  | _, F32.NaN => F32.NaN
  | F32.Finite a, F32.Finite b =>
    if b = 0 then
      if a = 0 then F32.NaN else if 0 < a then F32.PosInf else F32.NegInf
    else Round (a / b)
  | F32.Finite _, F32.PosInf => F32.Finite 0
  | F32.Finite _, F32.NegInf => F32.Finite 0
  | F32.PosInf, F32.Finite b => if 0 ≤ b then F32.PosInf else F32.NegInf
  | F32.NegInf, F32.Finite b => if 0 ≤ b then F32.NegInf else F32.PosInf
  | F32.PosInf, F32.PosInf => F32.NaN
  | F32.PosInf, F32.NegInf => F32.NaN
  | F32.NegInf, F32.PosInf => F32.NaN
  | F32.NegInf, F32.NegInf => F32.NaN

/-- The `float` comparison `A < B`, false when either is a NaN. -/
def F32.Lt : F32 → F32 → Bool
  | F32.NaN, _ => false
  | _, F32.NaN => false
  | F32.Finite a, F32.Finite b => decide (a < b)
  | F32.Finite _, F32.PosInf => true
  | F32.Finite _, F32.NegInf => false
  | F32.PosInf, _ => false
  | F32.NegInf, F32.NegInf => false
  | F32.NegInf, _ => true

/-- The `float` comparison `A <= B`, false when either is a NaN. -/
def F32.Le : F32 → F32 → Bool
  | F32.NaN, _ => false
  | _, F32.NaN => false
  | F32.Finite a, F32.Finite b => decide (a ≤ b)
  | F32.Finite _, F32.PosInf => true
  | F32.Finite _, F32.NegInf => false
  | F32.PosInf, F32.PosInf => true
  | F32.PosInf, _ => false
  | F32.NegInf, _ => true

/-- Modelled from the spec: `FMath::Min` (engine code, not under src/):
`(A < B) ? A : B`. -/
def FMath.Min (A B : F32) : F32 := if A.Lt B then A else B

/-- Modelled from the spec: `FMath::Max` (engine code, not under src/):
`(B < A) ? A : B`. -/
def FMath.Max (A B : F32) : F32 := if B.Lt A then A else B

/-- Modelled from the spec: `FMath::Clamp` (engine code, not under src/), the
`clamp(p,0,1)` of step 4a: `Max(Min(X, MaxValue), MinValue)`. -/
def FMath.Clamp (X MinValue MaxValue : F32) : F32 :=
  FMath.Max (FMath.Min X MaxValue) MinValue

/-- Observable calls made during a run, in order. -/
inductive Call where
  -- the work callback (`JobFunc`) of the job with this name is entered
  | JobFunc (JobName : String)
  -- the progress sink is invoked with this value
  | UpdateInitialGameContentLoadPercent (GameContentPercent : F32)
  deriving DecidableEq, Repr

/-- The lambda bound to `SubstepProgressDelegate` at lines 228-234, given by
its captures `[AccumulatedJobValue, JobValue, TotalJobValue]`. -/
structure SubstepProgressLambda where
  AccumulatedJobValue : F32
  JobValue : F32
  TotalJobValue : F32
  deriving DecidableEq, Repr

/-- Body of the bound lambda (lines 230-233): the sink call it makes when
invoked with `NewProgress`. -/
def SubstepProgressLambda.Execute (L : SubstepProgressLambda) (NewProgress : F32) : Call :=
  let SubstepAdjustment := (FMath.Clamp NewProgress (F32.Finite 0) (F32.Finite 1)).Mul L.JobValue
  let OverallPercentWithSubstep :=
    (L.AccumulatedJobValue.Add SubstepAdjustment).Div L.TotalJobValue
  Call.UpdateInitialGameContentLoadPercent OverallPercentWithSubstep

/-- Modelled from the spec: the work callback of a job (type `JobFunc` of
System/UltraAssetManagerStartupJob.h, not under src/), by what the runner can
observe of it: the values it passes to its sub-progress callback while
executing, in order (step 4b), and whether it then fails instead of returning
(the error conditions of section 4.1). -/
structure JobWork where
  Substeps : List F32
  Fails : Bool
  deriving DecidableEq, Repr

/-- Modelled from the spec: the struct `FUltraAssetManagerStartupJob`
(System/UltraAssetManagerStartupJob.h, not under src/), with the fields that
lines 30 and 201-254 use: name, work callback and weight (the Job of section
3), and the sub-progress delegate that lines 228 and 238 bind and unbind in
place; `none` is an unbound delegate. -/
structure FUltraAssetManagerStartupJob where
  JobName : String
  JobFunc : JobWork
  JobWeight : F32
  SubstepProgressDelegate : Option SubstepProgressLambda
  deriving DecidableEq, Repr

/-- The job that `STARTUP_JOB_WEIGHTED(JobFunc, JobWeight)` (line 30) appends to
`StartupJobs`: a job constructed from name, callback and weight, whose delegate
nothing has bound yet. -/
def STARTUP_JOB_WEIGHTED (JobName : String) (JobFunc : JobWork) (JobWeight : F32) :
    FUltraAssetManagerStartupJob :=
  { JobName := JobName, JobFunc := JobFunc, JobWeight := JobWeight,
    SubstepProgressDelegate := none }

/-- The job that `STARTUP_JOB(JobFunc)` (line 31) appends: weight `1.f`. -/
def STARTUP_JOB (JobName : String) (JobFunc : JobWork) : FUltraAssetManagerStartupJob :=
  STARTUP_JOB_WEIGHTED JobName JobFunc (F32.Finite 1)

/-- Modelled from the spec: `FUltraAssetManagerStartupJob::DoJob`
(System/UltraAssetManagerStartupJob.h/.cpp, not under src/). Step 4b: the work
callback is executed synchronously and may call the sub-progress callback any
number of times; a call reaches the bound lambda only while the delegate is
bound. Returns the calls made and whether the job returned normally. -/
def FUltraAssetManagerStartupJob.DoJob (StartupJob : FUltraAssetManagerStartupJob) :
    List Call × Bool :=
  let Substeps : List Call :=
    match StartupJob.SubstepProgressDelegate with
    | none => []
    | some L => StartupJob.JobFunc.Substeps.map L.Execute
  (Call.JobFunc StartupJob.JobName :: Substeps, !StartupJob.JobFunc.Fails)

/-- The part of the asset manager that `DoAllStartupJobs` reads and writes. -/
structure UUltraAssetManager where
  StartupJobs : List FUltraAssetManagerStartupJob
  deriving DecidableEq, Repr

/-- What one call of `DoAllStartupJobs` leaves behind: the manager afterwards,
the calls made in order, and whether the function returned (`false`: a job
failed and the failure propagated to the caller). -/
structure Run where
  This : UUltraAssetManager
  Calls : List Call
  Returned : Bool
  deriving DecidableEq, Repr

/-- The dedicated-server loop, lines 209-212: the calls made and whether every
job returned. -/
def ServerLoop : List FUltraAssetManagerStartupJob → List Call × Bool
  | [] => ([], true)
  | StartupJob :: Rest =>
    let R := StartupJob.DoJob
    if R.2 then
      let R2 := ServerLoop Rest
      (R.1 ++ R2.1, R2.2)
    else (R.1, false)

/-- The total of lines 218-222: the weights added one by one, in list order,
to `0.0f`. -/
def TotalJobValue (StartupJobs : List FUltraAssetManagerStartupJob) : F32 :=
  StartupJobs.foldl (fun Total StartupJob => Total.Add StartupJob.JobWeight) (F32.Finite 0)

/-- The progress loop, lines 224-243, from a given `AccumulatedJobValue` over
the jobs still to run: the jobs as the loop leaves them, the calls made, and
whether every job returned. -/
def ProgressLoop (TotalJobValue : F32) :
    List FUltraAssetManagerStartupJob → F32 →
      List FUltraAssetManagerStartupJob × List Call × Bool
  | [], _ => ([], [], true)
  | StartupJob :: Rest, AccumulatedJobValue =>
    let JobValue := StartupJob.JobWeight
    let Bound : FUltraAssetManagerStartupJob :=
      { StartupJob with
        SubstepProgressDelegate :=
          some { AccumulatedJobValue := AccumulatedJobValue, JobValue := JobValue,
                 TotalJobValue := TotalJobValue } }
    let R := Bound.DoJob
    if R.2 then
      let Unbound : FUltraAssetManagerStartupJob :=
        { Bound with SubstepProgressDelegate := none }
      let Accumulated := AccumulatedJobValue.Add JobValue
      let R2 := ProgressLoop TotalJobValue Rest Accumulated
      (Unbound :: R2.1,
        R.1 ++ Call.UpdateInitialGameContentLoadPercent (Accumulated.Div TotalJobValue)
          :: R2.2.1,
        R2.2.2)
    else (Bound :: Rest, R.1, false)

/-- `UUltraAssetManager::DoAllStartupJobs`, lines 201-254. -/
def DoAllStartupJobs (IsRunningDedicatedServer : Bool) (This : UUltraAssetManager) : Run :=
  if IsRunningDedicatedServer then
    let R := ServerLoop This.StartupJobs
    if R.2 then { This := { StartupJobs := [] }, Calls := R.1, Returned := true }
    else { This := This, Calls := R.1, Returned := false }
  else if This.StartupJobs.length > 0 then
    let Total := TotalJobValue This.StartupJobs
    let R := ProgressLoop Total This.StartupJobs (F32.Finite 0)
    if R.2.2 then { This := { StartupJobs := [] }, Calls := R.2.1, Returned := true }
    else { This := { StartupJobs := R.1 }, Calls := R.2.1, Returned := false }
  else
    { This := { StartupJobs := [] },
      Calls := [Call.UpdateInitialGameContentLoadPercent (F32.Finite 1)],
      Returned := true }

/-- The values the progress sink received, in order. -/
def ProgressReports : List Call → List F32
  | [] => []
  | Call.UpdateInitialGameContentLoadPercent P :: Rest => P :: ProgressReports Rest
  | Call.JobFunc _ :: Rest => ProgressReports Rest

/-- The names of the jobs whose work callback was entered, in order. -/
def JobsExecuted : List Call → List String
  | [] => []
  | Call.JobFunc N :: Rest => N :: JobsExecuted Rest
  | Call.UpdateInitialGameContentLoadPercent _ :: Rest => JobsExecuted Rest

end AssetManagerBinary32

namespace UltraAssetManager

/-! ## Helper lemmas -/

theorem FloatDiv_zero (A : ℚ) : FloatDiv A 0 = none := by
  simp [FloatDiv]

theorem JobsExecuted_append (A B : List Call) :
    JobsExecuted (A ++ B) = JobsExecuted A ++ JobsExecuted B := by
  induction A with
  | nil => rfl
  | cons c A ih => cases c <;> simp [JobsExecuted, ih]

theorem JobsExecuted_map_Execute (L : SubstepProgressLambda) (Ps : List ℚ) :
    JobsExecuted (Ps.map L.Execute) = [] := by
  induction Ps with
  | nil => rfl
  | cons P Ps ih => simp [SubstepProgressLambda.Execute, JobsExecuted] at ih ⊢; exact ih

theorem foldl_JobWeight (Jobs : List FUltraAssetManagerStartupJob) (A : ℚ) :
    Jobs.foldl (fun Total StartupJob => Total + StartupJob.JobWeight) A =
      A + (Jobs.map (·.JobWeight)).sum := by
  induction Jobs generalizing A with
  | nil => simp
  | cons J Jobs ih => simp [ih, add_assoc]

theorem TotalJobValue_eq_sum (Jobs : List FUltraAssetManagerStartupJob) :
    TotalJobValue Jobs = (Jobs.map (·.JobWeight)).sum := by
  simp [TotalJobValue, foldl_JobWeight]

/-- One turn of the progress loop whose job returns. -/
theorem ProgressLoop_cons_ok (T : ℚ) (J : FUltraAssetManagerStartupJob)
    (Rest : List FUltraAssetManagerStartupJob) (Acc : ℚ) (h : J.JobFunc.Fails = false) :
    ProgressLoop T (J :: Rest) Acc =
      ({ J with SubstepProgressDelegate := none } ::
          (ProgressLoop T Rest (Acc + J.JobWeight)).1,
        Call.JobFunc J.JobName ::
          (J.JobFunc.Substeps.map (SubstepProgressLambda.Execute ⟨Acc, J.JobWeight, T⟩) ++
            Call.UpdateInitialGameContentLoadPercent (FloatDiv (Acc + J.JobWeight) T) ::
              (ProgressLoop T Rest (Acc + J.JobWeight)).2.1),
        (ProgressLoop T Rest (Acc + J.JobWeight)).2.2) := by
  simp [ProgressLoop, FUltraAssetManagerStartupJob.DoJob, h]

/-- One turn of the progress loop whose job fails. -/
theorem ProgressLoop_cons_fail (T : ℚ) (J : FUltraAssetManagerStartupJob)
    (Rest : List FUltraAssetManagerStartupJob) (Acc : ℚ) (h : J.JobFunc.Fails = true) :
    ProgressLoop T (J :: Rest) Acc =
      ({ J with SubstepProgressDelegate := some ⟨Acc, J.JobWeight, T⟩ } :: Rest,
        Call.JobFunc J.JobName ::
          J.JobFunc.Substeps.map (SubstepProgressLambda.Execute ⟨Acc, J.JobWeight, T⟩),
        false) := by
  simp [ProgressLoop, FUltraAssetManagerStartupJob.DoJob, h]

/-- The server loop returns exactly when no job fails. -/
theorem ServerLoop_returned (Jobs : List FUltraAssetManagerStartupJob) :
    (ServerLoop Jobs).2 = true ↔ ∀ J ∈ Jobs, J.JobFunc.Fails = false := by
  induction Jobs with
  | nil => simp [ServerLoop]
  | cons J Jobs ih =>
    cases h : J.JobFunc.Fails <;>
      simp [ServerLoop, FUltraAssetManagerStartupJob.DoJob, h, ih]

/-- In progress-reporting mode with a non-empty job list the calls made are
those of the progress loop started at zero with the computed total. -/
theorem DoAllStartupJobs_progress_Calls (This : UUltraAssetManager)
    (hne : This.StartupJobs ≠ []) :
    (DoAllStartupJobs false This).Calls =
      (ProgressLoop (TotalJobValue This.StartupJobs) This.StartupJobs 0).2.1 := by
  have hlen : This.StartupJobs.length > 0 := List.length_pos.mpr hne
  cases h : (ProgressLoop (TotalJobValue This.StartupJobs) This.StartupJobs 0).2.2 <;>
    simp [DoAllStartupJobs, hlen, h]

/-- The server loop over jobs whose delegates are not bound never reaches the
progress sink. -/
theorem ServerLoop_no_reports (Jobs : List FUltraAssetManagerStartupJob)
    (hunb : ∀ J ∈ Jobs, J.SubstepProgressDelegate = none) :
    ProgressReports (ServerLoop Jobs).1 = [] := by
  induction Jobs with
  | nil => rfl
  | cons J Jobs ih =>
    have hJ : J.SubstepProgressDelegate = none := hunb J (List.mem_cons_self _ _)
    have hRest := ih (fun K hK => hunb K (List.mem_cons_of_mem _ hK))
    cases hF : J.JobFunc.Fails <;>
      simp [ServerLoop, FUltraAssetManagerStartupJob.DoJob, hJ, hF, ProgressReports, hRest]

/-- In dedicated-server mode the calls made are those of the server loop. -/
theorem DoAllStartupJobs_server_Calls (This : UUltraAssetManager) :
    (DoAllStartupJobs true This).Calls = (ServerLoop This.StartupJobs).1 := by
  cases h : (ServerLoop This.StartupJobs).2 <;> simp [DoAllStartupJobs, h]

/-- The server loop over jobs whose delegates are not bound, none of which
fails, enters every job's callback once, in list order, and nothing else. -/
theorem ServerLoop_all_ok (Jobs : List FUltraAssetManagerStartupJob)
    (hunb : ∀ J ∈ Jobs, J.SubstepProgressDelegate = none)
    (hok : ∀ J ∈ Jobs, J.JobFunc.Fails = false) :
    (ServerLoop Jobs).1 = Jobs.map (fun J => Call.JobFunc J.JobName) := by
  induction Jobs with
  | nil => rfl
  | cons J Jobs ih =>
    have hJ : J.SubstepProgressDelegate = none := hunb J (List.mem_cons_self _ _)
    have hF : J.JobFunc.Fails = false := hok J (List.mem_cons_self _ _)
    have hRest := ih (fun K hK => hunb K (List.mem_cons_of_mem _ hK))
      (fun K hK => hok K (List.mem_cons_of_mem _ hK))
    simp [ServerLoop, FUltraAssetManagerStartupJob.DoJob, hJ, hF, hRest]

/-- A run that returned has emptied the job list. -/
theorem DoAllStartupJobs_returned_empty (Server : Bool) (This : UUltraAssetManager)
    (h : (DoAllStartupJobs Server This).Returned = true) :
    (DoAllStartupJobs Server This).This.StartupJobs = [] := by
  cases Server with
  | true =>
    cases hS : (ServerLoop This.StartupJobs).2 <;>
      simp [DoAllStartupJobs, hS] at h ⊢
  | false =>
    by_cases hne : This.StartupJobs = []
    · simp [DoAllStartupJobs, hne]
    · have hlen : This.StartupJobs.length > 0 := List.length_pos.mpr hne
      cases hP : (ProgressLoop (TotalJobValue This.StartupJobs) This.StartupJobs 0).2.2 <;>
        simp [DoAllStartupJobs, hlen, hP] at h ⊢

/-- A run on a manager whose job list is empty: no call in dedicated-server
mode, the single report of 1 otherwise. -/
theorem DoAllStartupJobs_of_empty (Server : Bool) (M : UUltraAssetManager)
    (hM : M.StartupJobs = []) :
    (DoAllStartupJobs Server M).Calls =
        (if Server then [] else [Call.UpdateInitialGameContentLoadPercent (some 1)]) ∧
      (DoAllStartupJobs Server M).Returned = true := by
  cases Server <;> simp [DoAllStartupJobs, hM, ServerLoop]

/-- With a zero total every report of the progress loop is a division by zero. -/
theorem ProgressLoop_zero_total (Jobs : List FUltraAssetManagerStartupJob) (Acc : ℚ)
    (hok : ∀ J ∈ Jobs, J.JobFunc.Fails = false) :
    (ProgressLoop 0 Jobs Acc).2.1 =
      Jobs.flatMap (fun J =>
        Call.JobFunc J.JobName ::
          (J.JobFunc.Substeps.map (fun _ => Call.UpdateInitialGameContentLoadPercent none) ++
            [Call.UpdateInitialGameContentLoadPercent none])) := by
  induction Jobs generalizing Acc with
  | nil => rfl
  | cons J Jobs ih =>
    have hF : J.JobFunc.Fails = false := hok J (List.mem_cons_self _ _)
    have hfun : SubstepProgressLambda.Execute ⟨Acc, J.JobWeight, 0⟩ =
        fun _ => Call.UpdateInitialGameContentLoadPercent none :=
      funext (fun P => by simp [SubstepProgressLambda.Execute, FloatDiv_zero])
    rw [ProgressLoop_cons_ok 0 J Jobs Acc hF,
      ih (Acc + J.JobWeight) (fun K hK => hok K (List.mem_cons_of_mem _ hK)), hfun,
      FloatDiv_zero]
    simp only [List.flatMap, List.map_cons, List.flatten_cons, List.cons_append,
      List.append_assoc, List.singleton_append, List.nil_append]

/-- Running a job enters its callback and no other. -/
theorem DoJob_JobsExecuted (J : FUltraAssetManagerStartupJob) :
    JobsExecuted J.DoJob.1 = [J.JobName] := by
  cases h : J.SubstepProgressDelegate <;>
    simp [FUltraAssetManagerStartupJob.DoJob, h, JobsExecuted, JobsExecuted_map_Execute]

/-- The server loop when the job at position `k` is the first to fail. -/
theorem ServerLoop_fail (Jobs : List FUltraAssetManagerStartupJob)
    (k : Nat) (hk : k < Jobs.length)
    (hprev : ∀ J ∈ Jobs.take k, J.JobFunc.Fails = false)
    (hfail : Jobs[k].JobFunc.Fails = true) :
    (ServerLoop Jobs).2 = false ∧
      JobsExecuted (ServerLoop Jobs).1 = (Jobs.take (k + 1)).map (·.JobName) := by
  induction Jobs generalizing k with
  | nil => simp at hk
  | cons J Jobs ih =>
    have hJE := DoJob_JobsExecuted J
    have hD : J.DoJob.2 = !J.JobFunc.Fails := rfl
    cases k with
    | zero =>
      have hF : J.JobFunc.Fails = true := by simpa using hfail
      simp [ServerLoop, hD, hF, hJE]
    | succ k =>
      have hF : J.JobFunc.Fails = false := hprev J (by simp)
      obtain ⟨h1, h2⟩ := ih k (by simpa using hk) (fun K hK => hprev K (by simp [hK]))
        (by simpa using hfail)
      simp [ServerLoop, hD, hF, JobsExecuted_append, hJE, h1, h2]

/-- The progress loop when the job at position `k` is the first to fail: the
jobs are left as they were, the failed job's delegate still bound. -/
theorem ProgressLoop_fail (T : ℚ) (Jobs : List FUltraAssetManagerStartupJob) (Acc : ℚ)
    (k : Nat) (hk : k < Jobs.length)
    (hunb : ∀ J ∈ Jobs, J.SubstepProgressDelegate = none)
    (hprev : ∀ J ∈ Jobs.take k, J.JobFunc.Fails = false)
    (hfail : Jobs[k].JobFunc.Fails = true) :
    (ProgressLoop T Jobs Acc).2.2 = false ∧
      JobsExecuted (ProgressLoop T Jobs Acc).2.1 = (Jobs.take (k + 1)).map (·.JobName) ∧
      (ProgressLoop T Jobs Acc).1 =
        Jobs.set k { Jobs[k] with
          SubstepProgressDelegate :=
            some ⟨Acc + ((Jobs.take k).map (·.JobWeight)).sum, Jobs[k].JobWeight, T⟩ } := by
  induction Jobs generalizing Acc k with
  | nil => simp at hk
  | cons J Jobs ih =>
    cases k with
    | zero =>
      have hF : J.JobFunc.Fails = true := by simpa using hfail
      rw [ProgressLoop_cons_fail T J Jobs Acc hF]
      simp [JobsExecuted, JobsExecuted_map_Execute]
    | succ k =>
      have hF : J.JobFunc.Fails = false := hprev J (by simp)
      have hJ : J.SubstepProgressDelegate = none := hunb J (List.mem_cons_self _ _)
      have hJeq : ({ J with SubstepProgressDelegate := none } : FUltraAssetManagerStartupJob)
          = J := by
        cases J; simp_all
      obtain ⟨h1, h2, h3⟩ := ih (Acc + J.JobWeight) k (by simpa using hk)
        (fun K hK => hunb K (List.mem_cons_of_mem _ hK))
        (fun K hK => hprev K (by simp [hK])) (by simpa using hfail)
      rw [ProgressLoop_cons_ok T J Jobs Acc hF, hJeq]
      simp [JobsExecuted, JobsExecuted_append, JobsExecuted_map_Execute, h1, h2, h3, add_assoc]

/-! ## The claims -/

/-- C5: in dedicated-server mode, for every job list as `STARTUP_JOB_WEIGHTED`
populates it (delegates not bound), whatever the weights, the progress sink is
never invoked; and when no job fails, the calls made are exactly one entry of
each job's callback, in list order, after which the function returns. -/
theorem DoAllStartupJobs_server_silent (This : UUltraAssetManager)
    (hunb : ∀ J ∈ This.StartupJobs, J.SubstepProgressDelegate = none) :
    ProgressReports (DoAllStartupJobs true This).Calls = [] ∧
      ((∀ J ∈ This.StartupJobs, J.JobFunc.Fails = false) →
        (DoAllStartupJobs true This).Calls =
            This.StartupJobs.map (fun J => Call.JobFunc J.JobName) ∧
          JobsExecuted (DoAllStartupJobs true This).Calls =
            This.StartupJobs.map (·.JobName) ∧
          (DoAllStartupJobs true This).Returned = true) := by
  refine ⟨?_, ?_⟩
  · rw [DoAllStartupJobs_server_Calls]
    exact ServerLoop_no_reports _ hunb
  · intro hok
    have hC := ServerLoop_all_ok _ hunb hok
    have hR := (ServerLoop_returned This.StartupJobs).mpr hok
    rw [DoAllStartupJobs_server_Calls, hC]
    refine ⟨rfl, ?_, by simp [DoAllStartupJobs, hR]⟩
    generalize This.StartupJobs = Jobs
    induction Jobs with
    | nil => rfl
    | cons J Jobs ih => simp [JobsExecuted, ih]

/-- C5 at a list with a zero and a negative weight, its jobs reporting
sub-progress into delegates that are not bound. -/
theorem DoAllStartupJobs_server_silent_witness :
    (∀ J ∈ [STARTUP_JOB_WEIGHTED "A" ⟨[1 / 2], false⟩ 0,
        STARTUP_JOB_WEIGHTED "B" ⟨[], false⟩ (-2), STARTUP_JOB "C" ⟨[1], false⟩],
        J.SubstepProgressDelegate = none) ∧
      (∀ J ∈ [STARTUP_JOB_WEIGHTED "A" ⟨[1 / 2], false⟩ 0,
        STARTUP_JOB_WEIGHTED "B" ⟨[], false⟩ (-2), STARTUP_JOB "C" ⟨[1], false⟩],
        J.JobFunc.Fails = false) ∧
      (DoAllStartupJobs true
          ⟨[STARTUP_JOB_WEIGHTED "A" ⟨[1 / 2], false⟩ 0,
            STARTUP_JOB_WEIGHTED "B" ⟨[], false⟩ (-2), STARTUP_JOB "C" ⟨[1], false⟩]⟩).Calls =
        [Call.JobFunc "A", Call.JobFunc "B", Call.JobFunc "C"] :=
  have hunb : ∀ J ∈ [STARTUP_JOB_WEIGHTED "A" ⟨[1 / 2], false⟩ 0,
      STARTUP_JOB_WEIGHTED "B" ⟨[], false⟩ (-2), STARTUP_JOB "C" ⟨[1], false⟩],
      J.SubstepProgressDelegate = none := by
    simp [STARTUP_JOB, STARTUP_JOB_WEIGHTED]
  have hok : ∀ J ∈ [STARTUP_JOB_WEIGHTED "A" ⟨[1 / 2], false⟩ 0,
      STARTUP_JOB_WEIGHTED "B" ⟨[], false⟩ (-2), STARTUP_JOB "C" ⟨[1], false⟩],
      J.JobFunc.Fails = false := by
    simp [STARTUP_JOB, STARTUP_JOB_WEIGHTED]
  ⟨hunb, hok, ((DoAllStartupJobs_server_silent _ hunb).2 hok).1⟩

/-- C7: for every job list and in either mode, after `DoAllStartupJobs` has
returned the job list is empty, and running it again on the manager it left
enters no job callback: in dedicated-server mode it makes no call at all, in
progress-reporting mode its only call is the report of 1. -/
theorem DoAllStartupJobs_one_shot (Server : Bool) (This : UUltraAssetManager)
    (h : (DoAllStartupJobs Server This).Returned = true) :
    (DoAllStartupJobs Server This).This.StartupJobs = [] ∧
      (DoAllStartupJobs true (DoAllStartupJobs Server This).This).Calls = [] ∧
      (DoAllStartupJobs false (DoAllStartupJobs Server This).This).Calls =
        [Call.UpdateInitialGameContentLoadPercent (some 1)] ∧
      ∀ Again : Bool,
        JobsExecuted (DoAllStartupJobs Again (DoAllStartupJobs Server This).This).Calls = [] ∧
        (DoAllStartupJobs Again (DoAllStartupJobs Server This).This).Returned = true := by
  have hE := DoAllStartupJobs_returned_empty Server This h
  refine ⟨hE, ?_, ?_, ?_⟩
  · simpa using (DoAllStartupJobs_of_empty true _ hE).1
  · simpa using (DoAllStartupJobs_of_empty false _ hE).1
  · intro Again
    obtain ⟨hC, hR⟩ := DoAllStartupJobs_of_empty Again _ hE
    rw [hC]
    refine ⟨?_, hR⟩
    cases Again <;> simp [JobsExecuted]

/-- C7 at the start-up list of `StartInitialLoading`, run in progress-reporting
mode. -/
theorem DoAllStartupJobs_one_shot_witness :
    (DoAllStartupJobs false
        ⟨[STARTUP_JOB "InitializeAbilitySystem()" ⟨[], false⟩,
          STARTUP_JOB "InitializeGameplayCueManager()" ⟨[], false⟩,
          STARTUP_JOB_WEIGHTED "GetGameData()" ⟨[1 / 2], false⟩ 25]⟩).Returned = true ∧
      (DoAllStartupJobs false
        ⟨[STARTUP_JOB "InitializeAbilitySystem()" ⟨[], false⟩,
          STARTUP_JOB "InitializeGameplayCueManager()" ⟨[], false⟩,
          STARTUP_JOB_WEIGHTED "GetGameData()" ⟨[1 / 2], false⟩ 25]⟩).This.StartupJobs = [] :=
  have h : (DoAllStartupJobs false
      ⟨[STARTUP_JOB "InitializeAbilitySystem()" ⟨[], false⟩,
        STARTUP_JOB "InitializeGameplayCueManager()" ⟨[], false⟩,
        STARTUP_JOB_WEIGHTED "GetGameData()" ⟨[1 / 2], false⟩ 25]⟩).Returned = true := by
    simp [DoAllStartupJobs, ProgressLoop, STARTUP_JOB, STARTUP_JOB_WEIGHTED,
      FUltraAssetManagerStartupJob.DoJob]
  ⟨h, (DoAllStartupJobs_one_shot false _ h).1⟩

/-- C8: in progress-reporting mode, for an empty job list `DoAllStartupJobs`
makes exactly one call, the progress sink with the value 1, and so enters no
job callback; it returns with the list still empty. -/
theorem DoAllStartupJobs_empty_list :
    (DoAllStartupJobs false ⟨[]⟩).Calls =
        [Call.UpdateInitialGameContentLoadPercent (some 1)] ∧
      ProgressReports (DoAllStartupJobs false ⟨[]⟩).Calls = [some 1] ∧
      JobsExecuted (DoAllStartupJobs false ⟨[]⟩).Calls = [] ∧
      (DoAllStartupJobs false ⟨[]⟩).Returned = true ∧
      (DoAllStartupJobs false ⟨[]⟩).This.StartupJobs = [] := by
  simp [DoAllStartupJobs, ProgressReports, JobsExecuted]

/-- C10: in progress-reporting mode the division by the total weight is
reached for every non-empty list: when all weights are zero (and the jobs
return) the total is zero, so every division by it has a zero divisor, and the
calls made are, for each job in order, its entry, one division by zero per
sub-progress value it reports, and the division by zero of the report after
the job. -/
theorem DoAllStartupJobs_zero_weights_divide_by_zero (This : UUltraAssetManager)
    (hne : This.StartupJobs ≠ [])
    (hzero : ∀ J ∈ This.StartupJobs, J.JobWeight = 0)
    (hok : ∀ J ∈ This.StartupJobs, J.JobFunc.Fails = false) :
    TotalJobValue This.StartupJobs = 0 ∧
      (∀ A : ℚ, FloatDiv A (TotalJobValue This.StartupJobs) = none) ∧
      (DoAllStartupJobs false This).Calls =
        This.StartupJobs.flatMap (fun J =>
          Call.JobFunc J.JobName ::
            (J.JobFunc.Substeps.map (fun _ => Call.UpdateInitialGameContentLoadPercent none) ++
              [Call.UpdateInitialGameContentLoadPercent none])) := by
  have hT : TotalJobValue This.StartupJobs = 0 := by
    rw [TotalJobValue_eq_sum]
    apply List.sum_eq_zero
    intro x hx
    obtain ⟨J, hJ, rfl⟩ := List.mem_map.mp hx
    exact hzero J hJ
  refine ⟨hT, fun A => by rw [hT]; exact FloatDiv_zero A, ?_⟩
  rw [DoAllStartupJobs_progress_Calls This hne, hT]
  exact ProgressLoop_zero_total _ _ hok

/-- C10 at two jobs of weight zero, the first reporting sub-progress 0.5. -/
theorem DoAllStartupJobs_zero_weights_divide_by_zero_witness :
    (DoAllStartupJobs false
        ⟨[STARTUP_JOB_WEIGHTED "A" ⟨[1 / 2], false⟩ 0,
          STARTUP_JOB_WEIGHTED "B" ⟨[], false⟩ 0]⟩).Calls =
      [Call.JobFunc "A", Call.UpdateInitialGameContentLoadPercent none,
        Call.UpdateInitialGameContentLoadPercent none,
        Call.JobFunc "B", Call.UpdateInitialGameContentLoadPercent none] := by
  have h := (DoAllStartupJobs_zero_weights_divide_by_zero
    ⟨[STARTUP_JOB_WEIGHTED "A" ⟨[1 / 2], false⟩ 0, STARTUP_JOB_WEIGHTED "B" ⟨[], false⟩ 0]⟩
    (by simp) (by simp [STARTUP_JOB_WEIGHTED]) (by simp [STARTUP_JOB_WEIGHTED])).2.2
  rw [h]
  simp [STARTUP_JOB_WEIGHTED]

/-- C9, as stated, fails in progress-reporting mode: when the only job of a
list fails, the list it leaves is not the list it was given, the failed job's
delegate being still bound. -/
theorem DoAllStartupJobs_failure_changes_list :
    (STARTUP_JOB "A" ⟨[], true⟩).JobFunc.Fails = true ∧
      (DoAllStartupJobs false ⟨[STARTUP_JOB "A" ⟨[], true⟩]⟩).Returned = false ∧
      (DoAllStartupJobs false ⟨[STARTUP_JOB "A" ⟨[], true⟩]⟩).This.StartupJobs =
        [{ JobName := "A", JobFunc := ⟨[], true⟩, JobWeight := 1,
           SubstepProgressDelegate := some ⟨0, 1, 1⟩ }] ∧
      (DoAllStartupJobs false ⟨[STARTUP_JOB "A" ⟨[], true⟩]⟩).This.StartupJobs ≠
        [STARTUP_JOB "A" ⟨[], true⟩] := by
  simp [DoAllStartupJobs, ProgressLoop, TotalJobValue, STARTUP_JOB, STARTUP_JOB_WEIGHTED,
    FUltraAssetManagerStartupJob.DoJob]

/-- C9, amended: in either mode, on a job list as `STARTUP_JOB_WEIGHTED`
populates it, if the job at position `k` is entered (the jobs before it
return) and fails, then `DoAllStartupJobs` does not return, the callbacks
entered are those of positions 0 to `k` and no other, and the job list is not
cleared: in dedicated-server mode it is unchanged, in progress-reporting mode
it is unchanged but for the failed job's delegate, which is still bound. -/
theorem DoAllStartupJobs_fail_fast (Server : Bool) (This : UUltraAssetManager)
    (k : Nat) (hk : k < This.StartupJobs.length)
    (hunb : ∀ J ∈ This.StartupJobs, J.SubstepProgressDelegate = none)
    (hprev : ∀ J ∈ This.StartupJobs.take k, J.JobFunc.Fails = false)
    (hfail : This.StartupJobs[k].JobFunc.Fails = true) :
    (DoAllStartupJobs Server This).Returned = false ∧
      JobsExecuted (DoAllStartupJobs Server This).Calls =
        (This.StartupJobs.take (k + 1)).map (·.JobName) ∧
      (DoAllStartupJobs Server This).This.StartupJobs =
        (if Server then This.StartupJobs
         else This.StartupJobs.set k { This.StartupJobs[k] with
           SubstepProgressDelegate :=
             some ⟨((This.StartupJobs.take k).map (·.JobWeight)).sum,
               This.StartupJobs[k].JobWeight, (This.StartupJobs.map (·.JobWeight)).sum⟩ }) := by
  cases Server with
  | true =>
    obtain ⟨h1, h2⟩ := ServerLoop_fail This.StartupJobs k hk hprev hfail
    simp [DoAllStartupJobs, h1, h2]
  | false =>
    have hlen : This.StartupJobs.length > 0 := by omega
    obtain ⟨h1, h2, h3⟩ := ProgressLoop_fail (TotalJobValue This.StartupJobs)
      This.StartupJobs 0 k hk hunb hprev hfail
    rw [zero_add, TotalJobValue_eq_sum] at h3
    rw [TotalJobValue_eq_sum] at h1 h2
    simp [DoAllStartupJobs, hlen, TotalJobValue_eq_sum, h1, h2, h3]

/-- C9, amended, at three jobs of which the second fails, in
progress-reporting mode: A and B are entered, C is not, and the list still
holds the three jobs. -/
theorem DoAllStartupJobs_fail_fast_witness :
    (DoAllStartupJobs false
        ⟨[STARTUP_JOB "A" ⟨[], false⟩, STARTUP_JOB "B" ⟨[1 / 2], true⟩,
          STARTUP_JOB "C" ⟨[], false⟩]⟩).Returned = false ∧
      JobsExecuted (DoAllStartupJobs false
        ⟨[STARTUP_JOB "A" ⟨[], false⟩, STARTUP_JOB "B" ⟨[1 / 2], true⟩,
          STARTUP_JOB "C" ⟨[], false⟩]⟩).Calls = ["A", "B"] ∧
      (DoAllStartupJobs false
        ⟨[STARTUP_JOB "A" ⟨[], false⟩, STARTUP_JOB "B" ⟨[1 / 2], true⟩,
          STARTUP_JOB "C" ⟨[], false⟩]⟩).This.StartupJobs =
        [STARTUP_JOB "A" ⟨[], false⟩,
          { JobName := "B", JobFunc := ⟨[1 / 2], true⟩, JobWeight := 1,
            SubstepProgressDelegate := some ⟨1, 1, 3⟩ },
          STARTUP_JOB "C" ⟨[], false⟩] := by
  have h := DoAllStartupJobs_fail_fast false
    ⟨[STARTUP_JOB "A" ⟨[], false⟩, STARTUP_JOB "B" ⟨[1 / 2], true⟩,
      STARTUP_JOB "C" ⟨[], false⟩]⟩ 1 (by simp)
    (by simp [STARTUP_JOB, STARTUP_JOB_WEIGHTED]) (by simp [STARTUP_JOB, STARTUP_JOB_WEIGHTED])
    (by simp [STARTUP_JOB, STARTUP_JOB_WEIGHTED])
  refine ⟨h.1, ?_, ?_⟩
  · rw [h.2.1]; simp [STARTUP_JOB, STARTUP_JOB_WEIGHTED]
  · rw [h.2.2]; simp [STARTUP_JOB, STARTUP_JOB_WEIGHTED]; norm_num

end UltraAssetManager

namespace UltraSettingKeyboardInput

/-- C11: for every key-bind slot and every key, `ChangeBinding` returns false
exactly when the slot is 0 and the key is the one bound in the primary option,
or the slot is 1 and the key is the one bound in the secondary option, or the
key is a gamepad key; whenever it returns false the setting (both mappable
options) is unchanged and no call was made, neither to the local settings'
custom keyboard bindings nor to the setting-changed notification; and with an
Ultra local player it always returns. -/
theorem ChangeBinding_returns_false_iff (IsGamepadKey : FKey → Bool)
    (This : UUltraSettingKeyboardInput) (InKeyBindSlot : Int) (NewKey : FKey) :
    ((∃ R, ChangeBinding IsGamepadKey This InKeyBindSlot NewKey = some R ∧
          R.ReturnValue = false) ↔
        ((InKeyBindSlot = 0 ∧ This.FirstMappableOption.InputMapping.Key = NewKey) ∨
          (InKeyBindSlot = 1 ∧ This.SecondaryMappableOption.InputMapping.Key = NewKey) ∨
          IsGamepadKey NewKey = true)) ∧
      (∀ R, ChangeBinding IsGamepadKey This InKeyBindSlot NewKey = some R →
        R.ReturnValue = false → R.This = This ∧ R.Calls = []) ∧
      (This.LocalPlayer = ULocalPlayer.UltraLocalPlayer →
        ∃ R, ChangeBinding IsGamepadKey This InKeyBindSlot NewKey = some R) := by
  by_cases hSame : (InKeyBindSlot = 0 ∧ This.FirstMappableOption.InputMapping.Key = NewKey) ∨
      (InKeyBindSlot = 1 ∧ This.SecondaryMappableOption.InputMapping.Key = NewKey)
  · have hC : ChangeBinding IsGamepadKey This InKeyBindSlot NewKey =
        some { ReturnValue := false, This := This, Calls := [] } := by
      simp only [ChangeBinding, if_pos hSame]
    rw [hC]
    refine ⟨⟨fun _ => ?_, fun _ => ⟨_, rfl, rfl⟩⟩, ?_, fun _ => ⟨_, rfl⟩⟩
    · rcases hSame with h | h
      · exact Or.inl h
      · exact Or.inr (Or.inl h)
    · intro R hR _
      cases hR
      exact ⟨rfl, rfl⟩
  · cases hG : IsGamepadKey NewKey with
    | true =>
      have hC : ChangeBinding IsGamepadKey This InKeyBindSlot NewKey =
          some { ReturnValue := false, This := This, Calls := [] } := by
        simp [ChangeBinding, if_neg hSame, hG]
      rw [hC]
      refine ⟨⟨fun _ => Or.inr (Or.inr rfl), fun _ => ⟨_, rfl, rfl⟩⟩, ?_, fun _ => ⟨_, rfl⟩⟩
      intro R hR _
      cases hR
      exact ⟨rfl, rfl⟩
    | false =>
      have hX : ¬ ((InKeyBindSlot = 0 ∧ This.FirstMappableOption.InputMapping.Key = NewKey) ∨
          (InKeyBindSlot = 1 ∧ This.SecondaryMappableOption.InputMapping.Key = NewKey) ∨
          false = true) := by
        rintro (h | h | h)
        · exact hSame (Or.inl h)
        · exact hSame (Or.inr h)
        · cases h
      have hTrue : ∀ R, ChangeBinding IsGamepadKey This InKeyBindSlot NewKey = some R →
          R.ReturnValue = true := by
        intro R hR
        simp only [ChangeBinding, if_neg hSame, hG] at hR
        cases hL : This.LocalPlayer <;> rw [hL] at hR <;> simp at hR
        by_cases h0 : InKeyBindSlot = 0
        · simp [h0] at hR; rw [← hR]
        · by_cases h1 : InKeyBindSlot = 1
          · simp [h1] at hR; rw [← hR]
          · simp [h0, h1] at hR; rw [← hR]
      refine ⟨⟨?_, fun h => absurd h hX⟩, ?_, ?_⟩
      · rintro ⟨R, hR, hF⟩
        rw [hTrue R hR] at hF
        cases hF
      · intro R hR hF
        rw [hTrue R hR] at hF
        cases hF
      · intro hL
        simp only [ChangeBinding, if_neg hSame, hG, hL]
        by_cases h0 : InKeyBindSlot = 0
        · simp [h0]
        · by_cases h1 : InKeyBindSlot = 1
          · simp [h1]
          · simp [h0, h1]

/-- C11 at a setting whose primary key is W and whose secondary key is Up:
binding W again in slot 0 returns false, leaves the setting as it was and
makes no call. -/
theorem ChangeBinding_returns_false_iff_witness :
    ∃ R,
      ChangeBinding (fun K => decide (K.KeyName = "Gamepad_FaceButton_Bottom"))
          { FirstMappableOption := ⟨⟨⟨"MoveForward", "Move Forward"⟩, ⟨"W"⟩⟩, none, ⟨"W"⟩⟩,
            SecondaryMappableOption := ⟨⟨⟨"MoveForward", "Move Forward"⟩, ⟨"Up"⟩⟩, none, ⟨"Up"⟩⟩,
            LocalPlayer := ULocalPlayer.UltraLocalPlayer }
          0 ⟨"W"⟩ = some R ∧
        R.ReturnValue = false ∧
        R.This =
          { FirstMappableOption := ⟨⟨⟨"MoveForward", "Move Forward"⟩, ⟨"W"⟩⟩, none, ⟨"W"⟩⟩,
            SecondaryMappableOption := ⟨⟨⟨"MoveForward", "Move Forward"⟩, ⟨"Up"⟩⟩, none, ⟨"Up"⟩⟩,
            LocalPlayer := ULocalPlayer.UltraLocalPlayer } ∧
        R.Calls = [] := by
  obtain ⟨R, hR, hF⟩ := (ChangeBinding_returns_false_iff
    (fun K => decide (K.KeyName = "Gamepad_FaceButton_Bottom"))
    { FirstMappableOption := ⟨⟨⟨"MoveForward", "Move Forward"⟩, ⟨"W"⟩⟩, none, ⟨"W"⟩⟩,
      SecondaryMappableOption := ⟨⟨⟨"MoveForward", "Move Forward"⟩, ⟨"Up"⟩⟩, none, ⟨"Up"⟩⟩,
      LocalPlayer := ULocalPlayer.UltraLocalPlayer }
    0 ⟨"W"⟩).1.mpr (Or.inl ⟨rfl, rfl⟩)
  exact ⟨R, hR, hF, (ChangeBinding_returns_false_iff _ _ _ _).2.1 R hR hF⟩

end UltraSettingKeyboardInput

namespace AssetManagerBinary32

/-! ## Rounding to `float`, and the loops over `float` -/

theorem RoundHalfEven_floor_le (r : ℚ) : ⌊r⌋ ≤ RoundHalfEven r := by
  unfold RoundHalfEven
  split_ifs <;> omega

theorem RoundHalfEven_le_floor_succ (r : ℚ) : RoundHalfEven r ≤ ⌊r⌋ + 1 := by
  unfold RoundHalfEven
  split_ifs <;> omega

theorem RoundHalfEven_intCast (n : ℤ) : RoundHalfEven (n : ℚ) = n := by
  simp [RoundHalfEven]

theorem RoundHalfEven_mono {x y : ℚ} (h : x ≤ y) : RoundHalfEven x ≤ RoundHalfEven y := by
  rcases lt_or_eq_of_le (Int.floor_mono h) with hlt | heq
  · have h1 := RoundHalfEven_le_floor_succ x
    have h2 := RoundHalfEven_floor_le y
    omega
  · have hd : x - ⌊x⌋ ≤ y - ⌊x⌋ := by linarith
    unfold RoundHalfEven
    rw [← heq]
    split_ifs <;> first | omega | (exfalso; linarith)

theorem RoundHalfEven_le_of_le {r : ℚ} {n : ℤ} (h : r ≤ n) : RoundHalfEven r ≤ n := by
  have := RoundHalfEven_mono h
  rwa [RoundHalfEven_intCast] at this

theorem RoundHalfEven_ge_of_ge {r : ℚ} {n : ℤ} (h : (n : ℚ) ≤ r) : n ≤ RoundHalfEven r := by
  have := RoundHalfEven_mono h
  rwa [RoundHalfEven_intCast] at this

theorem Exponent_ge (q : ℚ) : -126 ≤ Exponent q := le_max_right _ _

theorem lt_zpow_Exponent_succ {q : ℚ} (hq : 0 < q) : q < 2 ^ (Exponent q + 1) := by
  have h1 : q < ((2 : ℕ) : ℚ) ^ (Int.log 2 q + 1) := Int.lt_zpow_succ_log_self (by norm_num) q
  have h2 : ((2 : ℕ) : ℚ) ^ (Int.log 2 q + 1) ≤ ((2 : ℕ) : ℚ) ^ (Exponent q + 1) := by
    apply zpow_le_zpow_right₀ (by norm_num)
    have : Int.log 2 q ≤ Exponent q := by
      unfold Exponent; rw [abs_of_pos hq]; exact le_max_left _ _
    omega
  have := lt_of_lt_of_le h1 h2
  simpa using this

theorem zpow_Exponent_le {q : ℚ} (hq : 0 < q) (hE : -126 < Exponent q) :
    2 ^ Exponent q ≤ q := by
  have hlog : Exponent q = Int.log 2 q := by
    unfold Exponent at hE ⊢
    rw [abs_of_pos hq] at hE ⊢
    rcases le_total (Int.log 2 q) (-126) with h | h
    · rw [max_eq_right h] at hE; omega
    · exact max_eq_left h
  rw [hlog]
  have := Int.zpow_log_le_self (b := 2) (by norm_num) hq
  simpa using this

theorem Exponent_mono {x y : ℚ} (hx : 0 < x) (h : x ≤ y) : Exponent x ≤ Exponent y := by
  unfold Exponent
  rw [abs_of_pos hx, abs_of_pos (lt_of_lt_of_le hx h)]
  exact max_le_max (Int.log_mono_right hx h) le_rfl

theorem Exponent_eq {q : ℚ} {e : ℤ} (hq : 0 < q) (he : -126 ≤ e)
    (hlo : 2 ^ e ≤ q ∨ e = -126) (hhi : q < 2 ^ (e + 1)) : Exponent q = e := by
  have h1 : Int.log 2 q < e + 1 := by
    rw [← Int.lt_zpow_iff_log_lt (by norm_num) hq]
    simpa using hhi
  unfold Exponent
  rw [abs_of_pos hq]
  rcases hlo with hlo | hlo
  · have h2 : e ≤ Int.log 2 q := by
      rw [← Int.zpow_le_iff_le_log (by norm_num) hq]
      simpa using hlo
    rw [max_eq_left (by omega)]
    omega
  · rw [max_eq_right (by omega)]
    omega


theorem Ulp_pos (e : ℤ) : (0 : ℚ) < 2 ^ (e - 23) := zpow_pos (by norm_num) _

theorem zpow_succ_eq (e : ℤ) : (2 : ℚ) ^ (e + 1) = 2 ^ 24 * 2 ^ (e - 23) := by
  have h : (2 : ℚ) ^ (e + 1) = 2 ^ (24 : ℤ) * 2 ^ (e - 23) := by
    rw [← zpow_add₀ (by norm_num : (2 : ℚ) ≠ 0)]
    congr 1
    ring
  rw [h]
  norm_num

theorem zpow_eq (e : ℤ) : (2 : ℚ) ^ e = 2 ^ 23 * 2 ^ (e - 23) := by
  have h : (2 : ℚ) ^ e = 2 ^ (23 : ℤ) * 2 ^ (e - 23) := by
    rw [← zpow_add₀ (by norm_num : (2 : ℚ) ≠ 0)]
    congr 1
    ring
  rw [h]
  norm_num

theorem RoundQ_zero : RoundQ 0 = 0 := by
  simp [RoundQ, RoundHalfEven]

theorem RoundQ_nonneg {q : ℚ} (hq : 0 ≤ q) : 0 ≤ RoundQ q := by
  unfold RoundQ
  apply mul_nonneg _ (le_of_lt (Ulp_pos _))
  have h0 : ((0 : ℤ) : ℚ) ≤ q / 2 ^ (Exponent q - 23) := by
    simpa using div_nonneg hq (le_of_lt (Ulp_pos _))
  exact_mod_cast RoundHalfEven_ge_of_ge h0

/-- A positive number rounds to at most the next power of two. -/
theorem RoundQ_le_zpow {q : ℚ} (hq : 0 < q) : RoundQ q ≤ 2 ^ (Exponent q + 1) := by
  unfold RoundQ
  rw [zpow_succ_eq]
  apply mul_le_mul_of_nonneg_right _ (le_of_lt (Ulp_pos _))
  have h : q / 2 ^ (Exponent q - 23) ≤ ((2 ^ 24 : ℤ) : ℚ) := by
    rw [div_le_iff₀ (Ulp_pos _)]
    have := lt_zpow_Exponent_succ hq
    rw [zpow_succ_eq] at this
    push_cast
    exact le_of_lt this
  have := RoundHalfEven_le_of_le h
  exact_mod_cast this

/-- A number in the normal range rounds to at least the power of two below it. -/
theorem zpow_le_RoundQ {q : ℚ} (hq : 0 < q) (hE : -126 < Exponent q) :
    2 ^ Exponent q ≤ RoundQ q := by
  unfold RoundQ
  rw [zpow_eq (Exponent q)]
  apply mul_le_mul_of_nonneg_right _ (le_of_lt (Ulp_pos _))
  have h : ((2 ^ 23 : ℤ) : ℚ) ≤ q / 2 ^ (Exponent q - 23) := by
    rw [le_div_iff₀ (Ulp_pos _)]
    have := zpow_Exponent_le hq hE
    rw [zpow_eq (Exponent q)] at this
    push_cast
    exact this
  have := RoundHalfEven_ge_of_ge h
  exact_mod_cast this

/-- Rounding to nearest is monotone on the non-negative numbers. -/
theorem RoundQ_mono {x y : ℚ} (hx : 0 ≤ x) (h : x ≤ y) : RoundQ x ≤ RoundQ y := by
  rcases eq_or_lt_of_le hx with h0 | hpos
  · rw [← h0, RoundQ_zero]
    exact RoundQ_nonneg (le_trans hx h)
  · have hy : 0 < y := lt_of_lt_of_le hpos h
    rcases eq_or_lt_of_le (Exponent_mono hpos h) with hE | hE
    · unfold RoundQ
      rw [hE]
      apply mul_le_mul_of_nonneg_right _ (le_of_lt (Ulp_pos _))
      have : x / 2 ^ (Exponent y - 23) ≤ y / 2 ^ (Exponent y - 23) :=
        div_le_div_of_nonneg_right h (le_of_lt (Ulp_pos _))
      exact_mod_cast RoundHalfEven_mono this
    · have h1 := RoundQ_le_zpow hpos
      have h2 := zpow_le_RoundQ hy (lt_of_le_of_lt (Exponent_ge x) hE)
      have h3 : (2 : ℚ) ^ (Exponent x + 1) ≤ 2 ^ Exponent y :=
        zpow_le_zpow_right₀ (by norm_num) (by omega)
      linarith

/-- A point of the float grid rounds to itself. -/
theorem RoundQ_grid {n e : ℤ} (hn : 0 ≤ n) (hn2 : n < 2 ^ 24) (he : -126 ≤ e)
    (hlo : 2 ^ 23 ≤ n ∨ e = -126) : RoundQ (n * 2 ^ (e - 23)) = n * 2 ^ (e - 23) := by
  rcases eq_or_lt_of_le hn with h0 | hpos
  · rw [← h0]; simp [RoundQ_zero]
  · have hq : (0 : ℚ) < n * 2 ^ (e - 23) :=
      mul_pos (by exact_mod_cast hpos) (Ulp_pos e)
    have hE : Exponent ((n : ℚ) * 2 ^ (e - 23)) = e := by
      apply Exponent_eq hq he
      · rcases hlo with hlo | hlo
        · left
          rw [zpow_eq e]
          apply mul_le_mul_of_nonneg_right _ (le_of_lt (Ulp_pos _))
          exact_mod_cast hlo
        · right; exact hlo
      · rw [zpow_succ_eq]
        apply mul_lt_mul_of_pos_right _ (Ulp_pos _)
        exact_mod_cast hn2
    unfold RoundQ
    rw [hE, mul_div_assoc, div_self (ne_of_gt (Ulp_pos e)), mul_one, RoundHalfEven_intCast]

/-- A rounded non-negative number rounds to itself. -/
theorem RoundQ_idem {q : ℚ} (hq : 0 ≤ q) : RoundQ (RoundQ q) = RoundQ q := by
  rcases eq_or_lt_of_le hq with h0 | hpos
  · rw [← h0, RoundQ_zero, RoundQ_zero]
  · have hdef : RoundQ q =
        RoundHalfEven (q / 2 ^ (Exponent q - 23)) * 2 ^ (Exponent q - 23) := rfl
    have hn0 : 0 ≤ RoundHalfEven (q / 2 ^ (Exponent q - 23)) := by
      have h0 : ((0 : ℤ) : ℚ) ≤ q / 2 ^ (Exponent q - 23) := by
        simpa using div_nonneg hq (le_of_lt (Ulp_pos _))
      exact RoundHalfEven_ge_of_ge h0
    have hn24 : RoundHalfEven (q / 2 ^ (Exponent q - 23)) ≤ 2 ^ 24 := by
      have h : q / 2 ^ (Exponent q - 23) ≤ ((2 ^ 24 : ℤ) : ℚ) := by
        rw [div_le_iff₀ (Ulp_pos _)]
        have := lt_zpow_Exponent_succ hpos
        rw [zpow_succ_eq] at this
        push_cast
        exact le_of_lt this
      exact RoundHalfEven_le_of_le h
    have hlo : 2 ^ 23 ≤ RoundHalfEven (q / 2 ^ (Exponent q - 23)) ∨ Exponent q = -126 := by
      rcases eq_or_lt_of_le (Exponent_ge q) with hE | hE
      · right; exact hE.symm
      · left
        have h : ((2 ^ 23 : ℤ) : ℚ) ≤ q / 2 ^ (Exponent q - 23) := by
          rw [le_div_iff₀ (Ulp_pos _)]
          have := zpow_Exponent_le hpos hE
          rw [zpow_eq (Exponent q)] at this
          push_cast
          exact this
        exact RoundHalfEven_ge_of_ge h
    rcases eq_or_lt_of_le hn24 with h24 | h24
    · have hval : RoundQ q = ((2 ^ 23 : ℤ) : ℚ) * 2 ^ ((Exponent q + 1) - 23) := by
        rw [hdef, h24]
        have : (2 : ℚ) ^ ((Exponent q + 1) - 23) = 2 * 2 ^ (Exponent q - 23) := by
          rw [show Exponent q + 1 - 23 = (Exponent q - 23) + 1 by ring,
            zpow_add_one₀ (by norm_num : (2 : ℚ) ≠ 0)]
          ring
        rw [this]
        push_cast
        ring
      rw [hval]
      exact RoundQ_grid (by norm_num) (by norm_num) (by have := Exponent_ge q; omega)
        (Or.inl le_rfl)
    · rw [hdef]
      exact RoundQ_grid hn0 h24 (Exponent_ge q) hlo

theorem RoundQ_one : RoundQ 1 = 1 := by
  have h := RoundQ_grid (n := 2 ^ 23) (e := 0) (by norm_num) (by norm_num) (by norm_num)
    (Or.inl le_rfl)
  norm_num at h
  exact h

theorem MaxFloat_pos : 0 < MaxFloat := by
  unfold MaxFloat; norm_num

theorem one_le_MaxFloat : 1 ≤ MaxFloat := by
  unfold MaxFloat; norm_num

/-- Rounding a non-negative number whose rounded value does not exceed
`FLT_MAX` gives that value. -/
theorem Round_of_le {q : ℚ} (hq : 0 ≤ q) (h : RoundQ q ≤ MaxFloat) :
    Round q = F32.Finite (RoundQ q) := by
  have h0 := RoundQ_nonneg hq
  have hM := MaxFloat_pos
  unfold Round
  rw [if_neg (not_lt.mpr h), if_neg (by linarith)]

/-- A non-negative number rounds to a finite value or overflows upwards. -/
theorem Round_nonneg_cases {q : ℚ} (hq : 0 ≤ q) :
    Round q = F32.PosInf ∨ Round q = F32.Finite (RoundQ q) := by
  rcases lt_or_le MaxFloat (RoundQ q) with h | h
  · left; unfold Round; rw [if_pos h]
  · right; exact Round_of_le hq h

/-- What a finite result of rounding says. -/
theorem Round_eq_Finite {q a : ℚ} (h : Round q = F32.Finite a) :
    a = RoundQ q ∧ RoundQ q ≤ MaxFloat := by
  unfold Round at h
  split_ifs at h with h1 h2
  · exact ⟨by injection h with h; exact h.symm, not_lt.mp h1⟩

/-- The quotient of a non-negative number by a positive one at least as large
is a finite value between 0 and 1. -/
theorem Div_unit {x T : ℚ} (hT : 0 < T) (hx : 0 ≤ x) (hxT : x ≤ T) :
    (F32.Finite x).Div (F32.Finite T) = F32.Finite (RoundQ (x / T)) ∧
      0 ≤ RoundQ (x / T) ∧ RoundQ (x / T) ≤ 1 := by
  have h0 : 0 ≤ x / T := div_nonneg hx (le_of_lt hT)
  have h1 : x / T ≤ 1 := (div_le_one hT).mpr hxT
  have h2 : RoundQ (x / T) ≤ 1 := by
    have := RoundQ_mono h0 h1
    rwa [RoundQ_one] at this
  refine ⟨?_, RoundQ_nonneg h0, h2⟩
  simp only [F32.Div, if_neg (ne_of_gt hT)]
  exact Round_of_le h0 (le_trans h2 one_le_MaxFloat)

/-- The clamp to [0, 1] of a value that is not a NaN is a finite value
between 0 and 1. -/
theorem Clamp_unit (P : F32) (hP : P ≠ F32.NaN) :
    ∃ c : ℚ, FMath.Clamp P (F32.Finite 0) (F32.Finite 1) = F32.Finite c ∧ 0 ≤ c ∧ c ≤ 1 := by
  cases P with
  | NaN => exact absurd rfl hP
  | PosInf => exact ⟨1, by simp [FMath.Clamp, FMath.Min, FMath.Max, F32.Lt], by norm_num, le_rfl⟩
  | NegInf => exact ⟨0, by simp [FMath.Clamp, FMath.Min, FMath.Max, F32.Lt], le_rfl, by norm_num⟩
  | Finite p =>
    by_cases h1 : p < 1
    · by_cases h0 : 0 < p
      · exact ⟨p, by simp [FMath.Clamp, FMath.Min, FMath.Max, F32.Lt, h1, h0], le_of_lt h0,
          le_of_lt h1⟩
      · exact ⟨0, by simp [FMath.Clamp, FMath.Min, FMath.Max, F32.Lt, h1, h0], le_rfl,
          by norm_num⟩
    · exact ⟨1, by simp [FMath.Clamp, FMath.Min, FMath.Max, F32.Lt, h1], by norm_num, le_rfl⟩

/-- Adding non-negative finite weights to an infinite sum leaves it infinite. -/
theorem foldl_Add_PosInf (Jobs : List FUltraAssetManagerStartupJob)
    (hW : ∀ J ∈ Jobs, ∃ w : ℚ, J.JobWeight = F32.Finite w ∧ 0 ≤ w ∧ Round w = F32.Finite w) :
    Jobs.foldl (fun Total StartupJob => Total.Add StartupJob.JobWeight) F32.PosInf =
      F32.PosInf := by
  induction Jobs with
  | nil => rfl
  | cons J Jobs ih =>
    obtain ⟨w, hw, _, _⟩ := hW J (List.mem_cons_self _ _)
    rw [List.foldl_cons, hw]
    simpa [F32.Add] using ih (fun K hK => hW K (List.mem_cons_of_mem _ hK))

/-- The sub-progress report of the bound lambda when nothing overflows: the
job's weight `w` is a float, the value accumulated before it is the float
`Acc`, the value accumulated after it is finite and at most the total. -/
theorem Execute_unit {T Acc w c : ℚ} (hT : 0 < T) (hAcc : 0 ≤ Acc)
    (hw0 : 0 ≤ w) (hw : Round w = F32.Finite w)
    (hnext : RoundQ (Acc + w) ≤ MaxFloat) (hnT : RoundQ (Acc + w) ≤ T)
    (hc0 : 0 ≤ c) (hc1 : c ≤ 1) (P : F32)
    (hP : FMath.Clamp P (F32.Finite 0) (F32.Finite 1) = F32.Finite c) :
    SubstepProgressLambda.Execute ⟨F32.Finite Acc, F32.Finite w, F32.Finite T⟩ P =
        Call.UpdateInitialGameContentLoadPercent
          (F32.Finite (RoundQ (RoundQ (Acc + RoundQ (c * w)) / T))) ∧
      0 ≤ RoundQ (c * w) ∧ RoundQ (c * w) ≤ w ∧
      0 ≤ RoundQ (Acc + RoundQ (c * w)) ∧
      RoundQ (Acc + RoundQ (c * w)) ≤ RoundQ (Acc + w) := by
  obtain ⟨hwq, hwM⟩ := Round_eq_Finite hw
  have hcw0 : 0 ≤ c * w := mul_nonneg hc0 hw0
  have hcw : c * w ≤ w := by nlinarith
  have hadj0 : 0 ≤ RoundQ (c * w) := RoundQ_nonneg hcw0
  have hadj : RoundQ (c * w) ≤ w := by
    have := RoundQ_mono hcw0 hcw
    rwa [← hwq] at this
  have hMul : (F32.Finite c).Mul (F32.Finite w) = F32.Finite (RoundQ (c * w)) := by
    simp only [F32.Mul]
    apply Round_of_le hcw0
    rw [← hwq] at hwM
    exact le_trans hadj hwM
  have hsum0 : 0 ≤ Acc + RoundQ (c * w) := by linarith
  have hx : RoundQ (Acc + RoundQ (c * w)) ≤ RoundQ (Acc + w) :=
    RoundQ_mono hsum0 (by linarith)
  have hAdd : (F32.Finite Acc).Add (F32.Finite (RoundQ (c * w))) =
      F32.Finite (RoundQ (Acc + RoundQ (c * w))) := by
    simp only [F32.Add]
    exact Round_of_le hsum0 (le_trans hx hnext)
  have hx0 := RoundQ_nonneg hsum0
  obtain ⟨hDiv, _, _⟩ := Div_unit hT hx0 (le_trans hx hnT)
  refine ⟨?_, hadj0, hadj, hx0, hx⟩
  simp only [SubstepProgressLambda.Execute, hP, hMul, hAdd, hDiv]

theorem ProgressReports_append_float (A B : List Call) :
    ProgressReports (A ++ B) = ProgressReports A ++ ProgressReports B := by
  induction A with
  | nil => rfl
  | cons c A ih => cases c <;> simp [ProgressReports, ih]

theorem JobsExecuted_append_float (A B : List Call) :
    JobsExecuted (A ++ B) = JobsExecuted A ++ JobsExecuted B := by
  induction A with
  | nil => rfl
  | cons c A ih => cases c <;> simp [JobsExecuted, ih]

theorem JobsExecuted_map_Execute_float (L : SubstepProgressLambda) (Ps : List F32) :
    JobsExecuted (Ps.map L.Execute) = [] := by
  induction Ps with
  | nil => rfl
  | cons P Ps ih => simp [SubstepProgressLambda.Execute, JobsExecuted] at ih ⊢; exact ih

/-- One turn of the progress loop whose job returns. -/
theorem ProgressLoop_cons_ok_float (T : F32) (J : FUltraAssetManagerStartupJob)
    (Rest : List FUltraAssetManagerStartupJob) (Acc : F32) (h : J.JobFunc.Fails = false) :
    ProgressLoop T (J :: Rest) Acc =
      ({ J with SubstepProgressDelegate := none } ::
          (ProgressLoop T Rest (Acc.Add J.JobWeight)).1,
        Call.JobFunc J.JobName ::
          (J.JobFunc.Substeps.map (SubstepProgressLambda.Execute ⟨Acc, J.JobWeight, T⟩) ++
            Call.UpdateInitialGameContentLoadPercent ((Acc.Add J.JobWeight).Div T) ::
              (ProgressLoop T Rest (Acc.Add J.JobWeight)).2.1),
        (ProgressLoop T Rest (Acc.Add J.JobWeight)).2.2) := by
  simp [ProgressLoop, FUltraAssetManagerStartupJob.DoJob, h]

/-- One turn of the progress loop whose job fails. -/
theorem ProgressLoop_cons_fail_float (T : F32) (J : FUltraAssetManagerStartupJob)
    (Rest : List FUltraAssetManagerStartupJob) (Acc : F32) (h : J.JobFunc.Fails = true) :
    ProgressLoop T (J :: Rest) Acc =
      ({ J with SubstepProgressDelegate := some ⟨Acc, J.JobWeight, T⟩ } :: Rest,
        Call.JobFunc J.JobName ::
          J.JobFunc.Substeps.map (SubstepProgressLambda.Execute ⟨Acc, J.JobWeight, T⟩),
        false) := by
  simp [ProgressLoop, FUltraAssetManagerStartupJob.DoJob, h]

/-- The progress loop returns exactly when no job fails. -/
theorem ProgressLoop_returned_float (T : F32) (Jobs : List FUltraAssetManagerStartupJob)
    (Acc : F32) :
    (ProgressLoop T Jobs Acc).2.2 = true ↔ ∀ J ∈ Jobs, J.JobFunc.Fails = false := by
  induction Jobs generalizing Acc with
  | nil => simp [ProgressLoop]
  | cons J Jobs ih =>
    cases h : J.JobFunc.Fails with
    | false => rw [ProgressLoop_cons_ok_float T J Jobs Acc h]; simp [ih, h]
    | true => rw [ProgressLoop_cons_fail_float T J Jobs Acc h]; simp [h]

/-- In progress-reporting mode with a non-empty job list the calls made are
those of the progress loop started at `0.0f` with the computed total. -/
theorem DoAllStartupJobs_progress_Calls_float (This : UUltraAssetManager)
    (hne : This.StartupJobs ≠ []) :
    (DoAllStartupJobs false This).Calls =
      (ProgressLoop (TotalJobValue This.StartupJobs) This.StartupJobs (F32.Finite 0)).2.1 := by
  have hlen : This.StartupJobs.length > 0 := List.length_pos.mpr hne
  cases h : (ProgressLoop (TotalJobValue This.StartupJobs) This.StartupJobs
      (F32.Finite 0)).2.2 <;>
    simp [DoAllStartupJobs, hlen, h]

/-- In progress-reporting mode with a non-empty job list the function returns
exactly when the progress loop does. -/
theorem DoAllStartupJobs_progress_Returned_float (This : UUltraAssetManager)
    (hne : This.StartupJobs ≠ []) :
    (DoAllStartupJobs false This).Returned =
      (ProgressLoop (TotalJobValue This.StartupJobs) This.StartupJobs (F32.Finite 0)).2.2 := by
  have hlen : This.StartupJobs.length > 0 := List.length_pos.mpr hne
  cases h : (ProgressLoop (TotalJobValue This.StartupJobs) This.StartupJobs
      (F32.Finite 0)).2.2 <;>
    simp [DoAllStartupJobs, hlen, h]

/-- The progress loop up to and including the sub-progress reports of the job
at position `k`, when the jobs before it return: the value accumulated before
job `k` is the float sum, in list order, of the weights before it. -/
theorem ProgressLoop_segment_float (T : F32) (Jobs : List FUltraAssetManagerStartupJob)
    (Acc : F32) (k : Nat) (hk : k < Jobs.length)
    (hprev : ∀ J ∈ Jobs.take k, J.JobFunc.Fails = false) :
    ∃ Pre Post : List Call,
      (ProgressLoop T Jobs Acc).2.1 =
        Pre ++ Call.JobFunc Jobs[k].JobName ::
          (Jobs[k].JobFunc.Substeps.map
              (SubstepProgressLambda.Execute
                ⟨(Jobs.take k).foldl (fun Total StartupJob => Total.Add StartupJob.JobWeight) Acc,
                  Jobs[k].JobWeight, T⟩) ++
            Post) ∧
      JobsExecuted Pre = (Jobs.take k).map (·.JobName) ∧
      (Jobs[k].JobFunc.Fails = true → Post = []) ∧
      (Jobs[k].JobFunc.Fails = false →
        ∃ Post2 : List Call,
          Post = Call.UpdateInitialGameContentLoadPercent
              (((Jobs.take (k + 1)).foldl
                (fun Total StartupJob => Total.Add StartupJob.JobWeight) Acc).Div T) :: Post2) := by
  induction Jobs generalizing Acc k with
  | nil => simp at hk
  | cons J Jobs ih =>
    cases k with
    | zero =>
      cases hF : J.JobFunc.Fails with
      | true =>
        refine ⟨[], [], ?_, rfl, ?_, ?_⟩
        · rw [ProgressLoop_cons_fail_float T J Jobs Acc hF]; simp
        · intro _; rfl
        · intro h; simp [hF] at h
      | false =>
        refine ⟨[], Call.UpdateInitialGameContentLoadPercent ((Acc.Add J.JobWeight).Div T) ::
          (ProgressLoop T Jobs (Acc.Add J.JobWeight)).2.1, ?_, rfl, ?_, ?_⟩
        · rw [ProgressLoop_cons_ok_float T J Jobs Acc hF]; simp
        · intro h; simp [hF] at h
        · intro _; exact ⟨(ProgressLoop T Jobs (Acc.Add J.JobWeight)).2.1, by simp⟩
    | succ k =>
      have hF : J.JobFunc.Fails = false := hprev J (by simp)
      have hk2 : k < Jobs.length := by simpa using hk
      have hprev2 : ∀ K ∈ Jobs.take k, K.JobFunc.Fails = false :=
        fun K hK => hprev K (by simp [hK])
      obtain ⟨Pre, Post, hC, hPre, hPf, hPo⟩ := ih (Acc.Add J.JobWeight) k hk2 hprev2
      refine ⟨Call.JobFunc J.JobName ::
          (J.JobFunc.Substeps.map (SubstepProgressLambda.Execute ⟨Acc, J.JobWeight, T⟩) ++
            Call.UpdateInitialGameContentLoadPercent ((Acc.Add J.JobWeight).Div T) :: Pre),
        Post, ?_, ?_, ?_, ?_⟩
      · rw [ProgressLoop_cons_ok_float T J Jobs Acc hF, hC]
        simp
      · simp [JobsExecuted, JobsExecuted_append_float, JobsExecuted_map_Execute_float, hPre]
      · simpa using hPf
      · intro h
        obtain ⟨Post2, h2⟩ := hPo (by simpa using h)
        exact ⟨Post2, by rw [h2]; simp⟩

/-- A progress loop in which every job returns enters every job's callback
once, in list order. -/
theorem ProgressLoop_JobsExecuted_float (T : F32) (Jobs : List FUltraAssetManagerStartupJob)
    (Acc : F32) (hok : ∀ J ∈ Jobs, J.JobFunc.Fails = false) :
    JobsExecuted (ProgressLoop T Jobs Acc).2.1 = Jobs.map (·.JobName) := by
  induction Jobs generalizing Acc with
  | nil => rfl
  | cons J Jobs ih =>
    have hF : J.JobFunc.Fails = false := hok J (List.mem_cons_self _ _)
    rw [ProgressLoop_cons_ok_float T J Jobs Acc hF]
    simp [JobsExecuted, JobsExecuted_append_float, JobsExecuted_map_Execute_float,
      ih (Acc.Add J.JobWeight) (fun K hK => hok K (List.mem_cons_of_mem _ hK))]

/-- The server loop over jobs whose delegates are not bound never reaches the
progress sink. -/
theorem ServerLoop_no_reports_float (Jobs : List FUltraAssetManagerStartupJob)
    (hunb : ∀ J ∈ Jobs, J.SubstepProgressDelegate = none) :
    ProgressReports (ServerLoop Jobs).1 = [] := by
  induction Jobs with
  | nil => rfl
  | cons J Jobs ih =>
    have hJ : J.SubstepProgressDelegate = none := hunb J (List.mem_cons_self _ _)
    have hRest := ih (fun K hK => hunb K (List.mem_cons_of_mem _ hK))
    cases hF : J.JobFunc.Fails <;>
      simp [ServerLoop, FUltraAssetManagerStartupJob.DoJob, hJ, hF, ProgressReports,
        ProgressReports_append_float, hRest]

/-- In dedicated-server mode the calls made are those of the server loop. -/
theorem DoAllStartupJobs_server_Calls_float (This : UUltraAssetManager) :
    (DoAllStartupJobs true This).Calls = (ServerLoop This.StartupJobs).1 := by
  cases h : (ServerLoop This.StartupJobs).2 <;> simp [DoAllStartupJobs, h]

/-- The value the bound lambda reports for a clamped sub-progress value `c`
when nothing overflows. -/
theorem SubstepValue_mono {T Acc w c d : ℚ} (hT : 0 < T) (hAcc : 0 ≤ Acc) (hw0 : 0 ≤ w)
    (hc0 : 0 ≤ c) (hcd : c ≤ d) :
    RoundQ (RoundQ (Acc + RoundQ (c * w)) / T) ≤ RoundQ (RoundQ (Acc + RoundQ (d * w)) / T) := by
  have h1 : RoundQ (c * w) ≤ RoundQ (d * w) :=
    RoundQ_mono (mul_nonneg hc0 hw0) (mul_le_mul_of_nonneg_right hcd hw0)
  have h2 : 0 ≤ RoundQ (c * w) := RoundQ_nonneg (mul_nonneg hc0 hw0)
  have h3 : RoundQ (Acc + RoundQ (c * w)) ≤ RoundQ (Acc + RoundQ (d * w)) :=
    RoundQ_mono (by linarith) (by linarith)
  have h4 : 0 ≤ RoundQ (Acc + RoundQ (c * w)) := RoundQ_nonneg (by linarith)
  exact RoundQ_mono (div_nonneg h4 (le_of_lt hT))
    (div_le_div_of_nonneg_right h3 (le_of_lt hT))

/-- The reports a job's sub-progress calls produce when nothing overflows:
finite values between the report before the job and the report after it,
ordered as the clamped sub-progress values are. -/
theorem substep_reports_float {T Acc w : ℚ} (hT : 0 < T) (hAcc : 0 ≤ Acc)
    (hAccR : RoundQ Acc = Acc) (hw0 : 0 ≤ w) (hw : Round w = F32.Finite w)
    (hnext : RoundQ (Acc + w) ≤ MaxFloat) (hnT : RoundQ (Acc + w) ≤ T)
    (Ps : List F32) (hP : ∀ P ∈ Ps, P ≠ F32.NaN) :
    ∃ rs : List ℚ,
      ProgressReports
          (Ps.map (SubstepProgressLambda.Execute ⟨F32.Finite Acc, F32.Finite w, F32.Finite T⟩)) =
        rs.map F32.Finite ∧
      (∀ r ∈ rs, RoundQ (Acc / T) ≤ r ∧ r ≤ RoundQ (RoundQ (Acc + w) / T)) ∧
      (List.Chain' (fun A B => F32.Le A B = true)
          (Ps.map (fun P => FMath.Clamp P (F32.Finite 0) (F32.Finite 1))) →
        List.Pairwise (· ≤ ·) rs) := by
  have hcs : ∃ cs : List ℚ,
      Ps.map (fun P => FMath.Clamp P (F32.Finite 0) (F32.Finite 1)) = cs.map F32.Finite ∧
      (∀ c ∈ cs, 0 ≤ c ∧ c ≤ 1) ∧
      ProgressReports
          (Ps.map (SubstepProgressLambda.Execute ⟨F32.Finite Acc, F32.Finite w, F32.Finite T⟩)) =
        (cs.map (fun c => RoundQ (RoundQ (Acc + RoundQ (c * w)) / T))).map F32.Finite := by
    induction Ps with
    | nil => exact ⟨[], rfl, by simp, rfl⟩
    | cons P Ps ih =>
      obtain ⟨cs, h1, h2, h3⟩ := ih (fun Q hQ => hP Q (List.mem_cons_of_mem _ hQ))
      obtain ⟨c, hc, hc0, hc1⟩ := Clamp_unit P (hP P (List.mem_cons_self _ _))
      obtain ⟨hE, _⟩ := Execute_unit hT hAcc hw0 hw hnext hnT hc0 hc1 P hc
      refine ⟨c :: cs, by simp [hc, h1], ?_, ?_⟩
      · intro d hd
        rcases List.mem_cons.mp hd with rfl | hd
        · exact ⟨hc0, hc1⟩
        · exact h2 d hd
      · rw [List.map_cons, hE]
        simp only [ProgressReports, h3, List.map_cons]
  obtain ⟨cs, h1, h2, h3⟩ := hcs
  refine ⟨cs.map (fun c => RoundQ (RoundQ (Acc + RoundQ (c * w)) / T)), h3, ?_, ?_⟩
  · intro r hr
    obtain ⟨c, hc, rfl⟩ := List.mem_map.mp hr
    obtain ⟨hc0, hc1⟩ := h2 c hc
    have hlo := SubstepValue_mono (w := w) hT hAcc hw0 le_rfl hc0
    have hhi := SubstepValue_mono (w := w) hT hAcc hw0 hc0 hc1
    rw [zero_mul, RoundQ_zero, add_zero, hAccR] at hlo
    rw [one_mul, (Round_eq_Finite hw).1.symm] at hhi
    exact ⟨hlo, hhi⟩
  · intro hch
    rw [h1, List.chain'_map] at hch
    have hch2 : List.Chain' (· ≤ ·) cs := by
      refine hch.imp ?_
      intro a b hab
      simpa [F32.Le] using hab
    rw [List.chain'_iff_pairwise] at hch2
    rw [List.pairwise_map]
    refine hch2.imp_of_mem ?_
    intro a b ha _ hab
    exact SubstepValue_mono hT hAcc hw0 (h2 a ha).1 hab

/-- The reports of the progress loop when the running sum stays finite and at
most the total, whether or not a job fails: each is a finite value between
the report at `Acc` and the report at the final sum, and they are ordered
when every job's clamped sub-progress values are. -/
theorem ProgressLoop_reports_float (T : ℚ) (hT : 0 < T)
    (Jobs : List FUltraAssetManagerStartupJob) (Acc S : ℚ)
    (hAcc : 0 ≤ Acc) (hAccR : RoundQ Acc = Acc)
    (hW : ∀ J ∈ Jobs, ∃ w : ℚ, J.JobWeight = F32.Finite w ∧ 0 ≤ w ∧ Round w = F32.Finite w)
    (hP : ∀ J ∈ Jobs, ∀ P ∈ J.JobFunc.Substeps, P ≠ F32.NaN)
    (hS : Jobs.foldl (fun Total StartupJob => Total.Add StartupJob.JobWeight) (F32.Finite Acc) =
      F32.Finite S)
    (hST : S ≤ T) :
    Acc ≤ S ∧
    ∃ qs : List ℚ,
      ProgressReports (ProgressLoop (F32.Finite T) Jobs (F32.Finite Acc)).2.1 =
        qs.map F32.Finite ∧
      (∀ q ∈ qs, RoundQ (Acc / T) ≤ q ∧ q ≤ RoundQ (S / T)) ∧
      ((∀ J ∈ Jobs, List.Chain' (fun A B => F32.Le A B = true)
          (J.JobFunc.Substeps.map (fun P => FMath.Clamp P (F32.Finite 0) (F32.Finite 1)))) →
        List.Pairwise (· ≤ ·) qs) := by
  induction Jobs generalizing Acc with
  | nil =>
    have hSA : Acc = S := by simpa using hS
    exact ⟨le_of_eq hSA, [], by simp [ProgressLoop, ProgressReports]⟩
  | cons J Jobs ih =>
    obtain ⟨w, hJw, hw0, hw⟩ := hW J (List.mem_cons_self _ _)
    have hWRest : ∀ K ∈ Jobs, ∃ w : ℚ, K.JobWeight = F32.Finite w ∧ 0 ≤ w ∧
        Round w = F32.Finite w := fun K hK => hW K (List.mem_cons_of_mem _ hK)
    have hsum0 : 0 ≤ Acc + w := by linarith
    have hAdd : (F32.Finite Acc).Add J.JobWeight = Round (Acc + w) := by
      rw [hJw]; simp only [F32.Add]
    rw [List.foldl_cons, hAdd] at hS
    have hfin : Round (Acc + w) = F32.Finite (RoundQ (Acc + w)) := by
      rcases Round_nonneg_cases hsum0 with h | h
      · rw [h, foldl_Add_PosInf Jobs hWRest] at hS
        cases hS
      · exact h
    rw [hfin] at hS
    have hnext : RoundQ (Acc + w) ≤ MaxFloat := (Round_eq_Finite hfin).2
    have hnext0 : 0 ≤ RoundQ (Acc + w) := RoundQ_nonneg hsum0
    have hstep : Acc ≤ RoundQ (Acc + w) := by
      have := RoundQ_mono hAcc (by linarith : Acc ≤ Acc + w)
      rwa [hAccR] at this
    obtain ⟨hNS, qs, hqs, hqb, hqp⟩ := ih (RoundQ (Acc + w)) hnext0 (RoundQ_idem hsum0) hWRest
      (fun K hK => hP K (List.mem_cons_of_mem _ hK)) hS
    have hnT : RoundQ (Acc + w) ≤ T := le_trans hNS hST
    have hS0 : 0 ≤ S := le_trans hnext0 hNS
    obtain ⟨rs, hrs, hrb, hrp⟩ := substep_reports_float hT hAcc hAccR hw0 hw hnext hnT
      J.JobFunc.Substeps (hP J (List.mem_cons_self _ _))
    have hmid : RoundQ (RoundQ (Acc + w) / T) ≤ RoundQ (S / T) :=
      RoundQ_mono (div_nonneg hnext0 (le_of_lt hT))
        (div_le_div_of_nonneg_right hNS (le_of_lt hT))
    have hlow : RoundQ (Acc / T) ≤ RoundQ (RoundQ (Acc + w) / T) :=
      RoundQ_mono (div_nonneg hAcc (le_of_lt hT))
        (div_le_div_of_nonneg_right hstep (le_of_lt hT))
    refine ⟨le_trans hstep hNS, ?_⟩
    cases hF : J.JobFunc.Fails with
    | true =>
      refine ⟨rs, ?_, ?_, ?_⟩
      · rw [ProgressLoop_cons_fail_float _ J Jobs _ hF, hJw]
        simp only [ProgressReports]
        exact hrs
      · intro q hq
        exact ⟨(hrb q hq).1, le_trans (hrb q hq).2 hmid⟩
      · intro hch
        exact hrp (hch J (List.mem_cons_self _ _))
    | false =>
      obtain ⟨hDiv, _, _⟩ := Div_unit hT hnext0 hnT
      refine ⟨rs ++ RoundQ (RoundQ (Acc + w) / T) :: qs, ?_, ?_, ?_⟩
      · rw [ProgressLoop_cons_ok_float _ J Jobs _ hF, hAdd, hfin, hJw]
        simp only [ProgressReports, ProgressReports_append_float, hrs, hDiv, hqs,
          List.map_append, List.map_cons]
      · intro q hq
        rcases List.mem_append.mp hq with hq | hq
        · exact ⟨(hrb q hq).1, le_trans (hrb q hq).2 hmid⟩
        · rcases List.mem_cons.mp hq with rfl | hq
          · exact ⟨hlow, hmid⟩
          · exact ⟨le_trans hlow (hqb q hq).1, (hqb q hq).2⟩
      · intro hch
        rw [List.pairwise_append]
        refine ⟨hrp (hch J (List.mem_cons_self _ _)), ?_, ?_⟩
        · rw [List.pairwise_cons]
          exact ⟨fun q hq => (hqb q hq).1,
            hqp (fun K hK => hch K (List.mem_cons_of_mem _ hK))⟩
        · intro a ha b hb
          have ha2 := (hrb a ha).2
          rcases List.mem_cons.mp hb with rfl | hb
          · exact ha2
          · exact le_trans ha2 (hqb b hb).1

/-- Rounding evaluated: a positive number between `2^e` and `2^(e+1)` (or
below `2^-126` when `e = -126`) rounds to the nearest multiple of `2^(e-23)`. -/
theorem RoundQ_eval {q : ℚ} (e n : ℤ) (hq : 0 < q) (he : -126 ≤ e)
    (hlo : 2 ^ e ≤ q ∨ e = -126) (hhi : q < 2 ^ (e + 1))
    (hn : RoundHalfEven (q / 2 ^ (e - 23)) = n) : RoundQ q = n * 2 ^ (e - 23) := by
  unfold RoundQ
  rw [Exponent_eq hq he hlo hhi, hn]

/-- The nearest integer evaluated from the integer part. -/
theorem RoundHalfEven_eval {r : ℚ} (f : ℤ) (h1 : (f : ℚ) ≤ r) (h2 : r < f + 1) :
    RoundHalfEven r =
      if r - f < 1 / 2 then f
      else if 1 / 2 < r - f then f + 1
      else if f % 2 = 0 then f else f + 1 := by
  have hf : ⌊r⌋ = f := Int.floor_eq_iff.mpr ⟨h1, h2⟩
  unfold RoundHalfEven
  rw [hf]

theorem Round_zero : Round 0 = F32.Finite 0 := by
  have := Round_of_le (le_refl (0 : ℚ)) (by rw [RoundQ_zero]; exact le_of_lt MaxFloat_pos)
  rwa [RoundQ_zero] at this

/-- A float in the normal range, given by its 24-bit significand and its
exponent, rounds to itself. -/
theorem Round_grid {n e : ℤ} (hn : 2 ^ 23 ≤ n) (hn2 : n < 2 ^ 24) (he : -126 ≤ e)
    (he2 : e ≤ 127) : Round (n * 2 ^ (e - 23)) = F32.Finite (n * 2 ^ (e - 23)) := by
  have hg := RoundQ_grid (le_trans (by norm_num) hn) hn2 he (Or.inl hn)
  have hq : (0 : ℚ) ≤ n * 2 ^ (e - 23) :=
    mul_nonneg (by exact_mod_cast le_trans (by norm_num) hn) (le_of_lt (Ulp_pos e))
  have hmax : (n : ℚ) * 2 ^ (e - 23) ≤ MaxFloat := by
    unfold MaxFloat
    have h1 : (n : ℚ) ≤ 2 ^ 24 - 1 := by
      have : n ≤ 2 ^ 24 - 1 := by omega
      exact_mod_cast this
    have h2 : (2 : ℚ) ^ (e - 23) ≤ 2 ^ (104 : ℤ) :=
      zpow_le_zpow_right₀ (by norm_num) (by omega)
    have h3 : (2 : ℚ) ^ (104 : ℤ) = 2 ^ 104 := by norm_num
    rw [h3] at h2
    exact mul_le_mul h1 h2 (le_of_lt (Ulp_pos e)) (by norm_num)
  have := Round_of_le hq (by rw [hg]; exact hmax)
  rwa [hg] at this

theorem Round_one : Round 1 = F32.Finite 1 := by
  have h := Round_grid (n := 2 ^ 23) (e := 0) le_rfl (by norm_num) (by norm_num) (by norm_num)
  norm_num at h
  exact h

theorem Round_two : Round 2 = F32.Finite 2 := by
  have h := Round_grid (n := 2 ^ 23) (e := 1) le_rfl (by norm_num) (by norm_num) (by norm_num)
  norm_num at h
  exact h

theorem Round_four : Round 4 = F32.Finite 4 := by
  have h := Round_grid (n := 2 ^ 23) (e := 2) le_rfl (by norm_num) (by norm_num) (by norm_num)
  norm_num at h
  exact h

theorem Round_five : Round 5 = F32.Finite 5 := by
  have h := Round_grid (n := 5 * 2 ^ 21) (e := 2) (by norm_num) (by norm_num) (by norm_num)
    (by norm_num)
  norm_num at h
  exact h

theorem Round_half : Round (1 / 2) = F32.Finite (1 / 2) := by
  have h := Round_grid (n := 2 ^ 23) (e := -1) le_rfl (by norm_num) (by norm_num) (by norm_num)
  norm_num at h
  simpa using h

theorem Round_quarter : Round (1 / 4) = F32.Finite (1 / 4) := by
  have h := Round_grid (n := 2 ^ 23) (e := -2) le_rfl (by norm_num) (by norm_num) (by norm_num)
  norm_num at h
  simpa using h

theorem Round_three_quarters : Round (3 / 4) = F32.Finite (3 / 4) := by
  have h := Round_grid (n := 3 * 2 ^ 22) (e := -1) (by norm_num) (by norm_num) (by norm_num)
    (by norm_num)
  norm_num at h
  simpa using h

/-- The float nearest to 1/5 is `0.2f` = 13421773 / 2^26. -/
theorem Round_one_fifth : Round (1 / 5) = F32.Finite (13421773 / 67108864) := by
  have hn : RoundHalfEven ((1 / 5 : ℚ) / 2 ^ ((-3 : ℤ) - 23)) = 13421773 := by
    rw [RoundHalfEven_eval 13421772 (by norm_num) (by norm_num)]
    norm_num
  have hq := RoundQ_eval (q := 1 / 5) (-3) 13421773 (by norm_num) (by norm_num)
    (Or.inl (by norm_num)) (by norm_num) hn
  have hv : ((13421773 : ℤ) : ℚ) * 2 ^ ((-3 : ℤ) - 23) = 13421773 / 67108864 := by norm_num
  rw [hv] at hq
  have := Round_of_le (by norm_num : (0 : ℚ) ≤ 1 / 5) (by rw [hq]; unfold MaxFloat; norm_num)
  rwa [hq] at this

/-- Rounding evaluated, finite result. -/
theorem Round_eval {q : ℚ} (e n : ℤ) (hq : 0 < q) (he : -126 ≤ e)
    (hlo : 2 ^ e ≤ q ∨ e = -126) (hhi : q < 2 ^ (e + 1))
    (hn : RoundHalfEven (q / 2 ^ (e - 23)) = n) (hmax : (n : ℚ) * 2 ^ (e - 23) ≤ MaxFloat) :
    Round q = F32.Finite (n * 2 ^ (e - 23)) := by
  have hv := RoundQ_eval e n hq he hlo hhi hn
  have := Round_of_le (le_of_lt hq) (by rw [hv]; exact hmax)
  rwa [hv] at this

/-- Rounding evaluated, overflow. -/
theorem Round_eval_overflow {q : ℚ} (e n : ℤ) (hq : 0 < q) (he : -126 ≤ e)
    (hlo : 2 ^ e ≤ q ∨ e = -126) (hhi : q < 2 ^ (e + 1))
    (hn : RoundHalfEven (q / 2 ^ (e - 23)) = n) (hmax : MaxFloat < (n : ℚ) * 2 ^ (e - 23)) :
    Round q = F32.PosInf := by
  have hv := RoundQ_eval e n hq he hlo hhi hn
  unfold Round
  rw [hv, if_pos hmax]

/-- The float nearest to 4/5 is `0.8f` = 13421773 / 2^24. -/
theorem Round_four_fifths : Round (4 / 5) = F32.Finite (13421773 / 16777216) := by
  have hn : RoundHalfEven ((4 / 5 : ℚ) / 2 ^ ((-1 : ℤ) - 23)) = 13421773 := by
    rw [RoundHalfEven_eval 13421772 (by norm_num) (by norm_num)]
    norm_num
  have h := Round_eval (q := 4 / 5) (-1) 13421773 (by norm_num) (by norm_num)
    (Or.inl (by norm_num)) (by norm_num) hn (by unfold MaxFloat; norm_num)
  norm_num at h
  exact h

theorem Round_two_pow_24 : Round 16777216 = F32.Finite 16777216 := by
  have h := Round_grid (n := 2 ^ 23) (e := 24) le_rfl (by norm_num) (by norm_num) (by norm_num)
  norm_num at h
  exact h

/-- The sum 2^24 + 1 is halfway between two floats and rounds to the even one,
2^24. -/
theorem Round_two_pow_24_add_one : Round 16777217 = F32.Finite 16777216 := by
  have hn : RoundHalfEven ((16777217 : ℚ) / 2 ^ ((24 : ℤ) - 23)) = 8388608 := by
    rw [RoundHalfEven_eval 8388608 (by norm_num) (by norm_num)]
    norm_num
  have h := Round_eval (q := 16777217) 24 8388608 (by norm_num) (by norm_num)
    (Or.inl (by norm_num)) (by norm_num) hn (by unfold MaxFloat; norm_num)
  norm_num at h
  exact h

/-- The float nearest to 2^24 / (2^24 + 1) is 1 - 2^-24, not 1. -/
theorem Round_claimed_quotient :
    Round (16777216 / 16777217) = F32.Finite (16777215 / 16777216) := by
  have hn : RoundHalfEven ((16777216 / 16777217 : ℚ) / 2 ^ ((-1 : ℤ) - 23)) = 16777215 := by
    rw [RoundHalfEven_eval 16777215 (by norm_num) (by norm_num)]
    norm_num
  have h := Round_eval (q := 16777216 / 16777217) (-1) 16777215 (by norm_num) (by norm_num)
    (Or.inl (by norm_num)) (by norm_num) hn (by unfold MaxFloat; norm_num)
  norm_num at h
  exact h

theorem Round_two_pow_127 :
    Round 170141183460469231731687303715884105728 =
      F32.Finite 170141183460469231731687303715884105728 := by
  have h := Round_grid (n := 2 ^ 23) (e := 127) le_rfl (by norm_num) (by norm_num)
    (by norm_num)
  norm_num at h
  exact h

/-- The sum 2^127 + 2^127 = 2^128 exceeds `FLT_MAX` and rounds to infinity. -/
theorem Round_two_pow_128 :
    Round 340282366920938463463374607431768211456 = F32.PosInf := by
  have hn : RoundHalfEven
      ((340282366920938463463374607431768211456 : ℚ) / 2 ^ ((128 : ℤ) - 23)) = 8388608 := by
    rw [RoundHalfEven_eval 8388608 (by norm_num) (by norm_num)]
    norm_num
  exact Round_eval_overflow (q := 340282366920938463463374607431768211456) 128 8388608
    (by norm_num) (by norm_num) (Or.inl (by norm_num)) (by norm_num) hn
    (by unfold MaxFloat; norm_num)

theorem Round_1e8 : Round 100000000 = F32.Finite 100000000 := by
  have h := Round_grid (n := 12500000) (e := 26) (by norm_num) (by norm_num) (by norm_num)
    (by norm_num)
  norm_num at h
  exact h

/-- The sum 1e8 + 1 rounds back to 1e8: floats are 8 apart there. -/
theorem Round_1e8_add_one : Round 100000001 = F32.Finite 100000000 := by
  have hn : RoundHalfEven ((100000001 : ℚ) / 2 ^ ((26 : ℤ) - 23)) = 12500000 := by
    rw [RoundHalfEven_eval 12500000 (by norm_num) (by norm_num)]
    norm_num
  have h := Round_eval (q := 100000001) 26 12500000 (by norm_num) (by norm_num)
    (Or.inl (by norm_num)) (by norm_num) hn (by unfold MaxFloat; norm_num)
  norm_num at h
  exact h

/-- The sum 1e8 + 0.5 rounds back to 1e8. -/
theorem Round_1e8_add_half : Round (200000001 / 2) = F32.Finite 100000000 := by
  have hn : RoundHalfEven ((200000001 / 2 : ℚ) / 2 ^ ((26 : ℤ) - 23)) = 12500000 := by
    rw [RoundHalfEven_eval 12500000 (by norm_num) (by norm_num)]
    norm_num
  have h := Round_eval (q := 200000001 / 2) 26 12500000 (by norm_num) (by norm_num)
    (Or.inl (by norm_num)) (by norm_num) hn (by unfold MaxFloat; norm_num)
  norm_num at h
  exact h

theorem Add_eval {a b : ℚ} {r : F32} (h : Round (a + b) = r) :
    (F32.Finite a).Add (F32.Finite b) = r := h

theorem Mul_eval {a b : ℚ} {r : F32} (h : Round (a * b) = r) :
    (F32.Finite a).Mul (F32.Finite b) = r := h

theorem Div_eval {a b : ℚ} {r : F32} (hb : b ≠ 0) (h : Round (a / b) = r) :
    (F32.Finite a).Div (F32.Finite b) = r := by
  simp only [F32.Div, if_neg hb]
  exact h

theorem Div_zero_of_pos {a : ℚ} (ha : 0 < a) :
    (F32.Finite a).Div (F32.Finite 0) = F32.PosInf := by
  simp [F32.Div, ne_of_gt ha, ha]

theorem Div_zero_zero : (F32.Finite 0).Div (F32.Finite 0) = F32.NaN := by
  simp [F32.Div]

theorem Div_PosInf (a : ℚ) : (F32.Finite a).Div F32.PosInf = F32.Finite 0 := rfl

theorem Div_PosInf_PosInf : F32.PosInf.Div F32.PosInf = F32.NaN := rfl

theorem Clamp_of_mem {p : ℚ} (h0 : 0 < p) (h1 : p < 1) :
    FMath.Clamp (F32.Finite p) (F32.Finite 0) (F32.Finite 1) = F32.Finite p := by
  simp [FMath.Clamp, FMath.Min, FMath.Max, F32.Lt, h0, h1]

theorem Clamp_of_nonpos {p : ℚ} (h0 : p ≤ 0) :
    FMath.Clamp (F32.Finite p) (F32.Finite 0) (F32.Finite 1) = F32.Finite 0 := by
  have h1 : p < 1 := lt_of_le_of_lt h0 (by norm_num)
  simp [FMath.Clamp, FMath.Min, FMath.Max, F32.Lt, h1, not_lt.mpr h0]

theorem Clamp_of_one_le {p : ℚ} (h1 : 1 ≤ p) :
    FMath.Clamp (F32.Finite p) (F32.Finite 0) (F32.Finite 1) = F32.Finite 1 := by
  simp [FMath.Clamp, FMath.Min, FMath.Max, F32.Lt, not_lt.mpr h1]

theorem Clamp_PosInf :
    FMath.Clamp F32.PosInf (F32.Finite 0) (F32.Finite 1) = F32.Finite 1 := by
  simp [FMath.Clamp, FMath.Min, FMath.Max, F32.Lt]

theorem Clamp_NegInf :
    FMath.Clamp F32.NegInf (F32.Finite 0) (F32.Finite 1) = F32.Finite 0 := by
  simp [FMath.Clamp, FMath.Min, FMath.Max, F32.Lt]

/-- The calls of a progress-mode run over one job that returns. -/
theorem DoAllStartupJobs_one_job (n1 : String) (s1 : List F32) (w1 : F32) :
    (DoAllStartupJobs false ⟨[STARTUP_JOB_WEIGHTED n1 ⟨s1, false⟩ w1]⟩).Calls =
      Call.JobFunc n1 ::
        (s1.map (SubstepProgressLambda.Execute
            ⟨F32.Finite 0, w1, (F32.Finite 0).Add w1⟩) ++
          [Call.UpdateInitialGameContentLoadPercent
            (((F32.Finite 0).Add w1).Div ((F32.Finite 0).Add w1))]) := by
  simp [DoAllStartupJobs, ProgressLoop, TotalJobValue, STARTUP_JOB_WEIGHTED,
    FUltraAssetManagerStartupJob.DoJob]

/-- The calls of a progress-mode run over two jobs that return. -/
theorem DoAllStartupJobs_two_jobs (n1 n2 : String) (s1 s2 : List F32) (w1 w2 : F32) :
    (DoAllStartupJobs false
        ⟨[STARTUP_JOB_WEIGHTED n1 ⟨s1, false⟩ w1, STARTUP_JOB_WEIGHTED n2 ⟨s2, false⟩ w2]⟩).Calls =
      Call.JobFunc n1 ::
        (s1.map (SubstepProgressLambda.Execute
            ⟨F32.Finite 0, w1, ((F32.Finite 0).Add w1).Add w2⟩) ++
          Call.UpdateInitialGameContentLoadPercent
            (((F32.Finite 0).Add w1).Div (((F32.Finite 0).Add w1).Add w2)) ::
          Call.JobFunc n2 ::
            (s2.map (SubstepProgressLambda.Execute
                ⟨(F32.Finite 0).Add w1, w2, ((F32.Finite 0).Add w1).Add w2⟩) ++
              [Call.UpdateInitialGameContentLoadPercent
                ((((F32.Finite 0).Add w1).Add w2).Div (((F32.Finite 0).Add w1).Add w2))])) := by
  simp [DoAllStartupJobs, ProgressLoop, TotalJobValue, STARTUP_JOB_WEIGHTED,
    FUltraAssetManagerStartupJob.DoJob]

/-- The calls of a progress-mode run over three jobs that return. -/
theorem DoAllStartupJobs_three_jobs (n1 n2 n3 : String) (s1 s2 s3 : List F32)
    (w1 w2 w3 : F32) :
    (DoAllStartupJobs false
        ⟨[STARTUP_JOB_WEIGHTED n1 ⟨s1, false⟩ w1, STARTUP_JOB_WEIGHTED n2 ⟨s2, false⟩ w2,
          STARTUP_JOB_WEIGHTED n3 ⟨s3, false⟩ w3]⟩).Calls =
      Call.JobFunc n1 ::
        (s1.map (SubstepProgressLambda.Execute
            ⟨F32.Finite 0, w1, (((F32.Finite 0).Add w1).Add w2).Add w3⟩) ++
          Call.UpdateInitialGameContentLoadPercent
            (((F32.Finite 0).Add w1).Div ((((F32.Finite 0).Add w1).Add w2).Add w3)) ::
          Call.JobFunc n2 ::
            (s2.map (SubstepProgressLambda.Execute
                ⟨(F32.Finite 0).Add w1, w2, (((F32.Finite 0).Add w1).Add w2).Add w3⟩) ++
              Call.UpdateInitialGameContentLoadPercent
                ((((F32.Finite 0).Add w1).Add w2).Div
                  ((((F32.Finite 0).Add w1).Add w2).Add w3)) ::
              Call.JobFunc n3 ::
                (s3.map (SubstepProgressLambda.Execute
                    ⟨((F32.Finite 0).Add w1).Add w2, w3,
                      (((F32.Finite 0).Add w1).Add w2).Add w3⟩) ++
                  [Call.UpdateInitialGameContentLoadPercent
                    (((((F32.Finite 0).Add w1).Add w2).Add w3).Div
                      ((((F32.Finite 0).Add w1).Add w2).Add w3))]))) := by
  simp [DoAllStartupJobs, ProgressLoop, TotalJobValue, STARTUP_JOB_WEIGHTED,
    FUltraAssetManagerStartupJob.DoJob]

/-- The value the bound lambda reports, operation by operation. -/
theorem Execute_eval (Acc W T P C M A R : F32)
    (hC : FMath.Clamp P (F32.Finite 0) (F32.Finite 1) = C) (hM : C.Mul W = M)
    (hA : Acc.Add M = A) (hR : A.Div T = R) :
    SubstepProgressLambda.Execute ⟨Acc, W, T⟩ P =
      Call.UpdateInitialGameContentLoadPercent R := by
  subst hC hM hA hR
  rfl

theorem TotalJobValue_two (J1 J2 : FUltraAssetManagerStartupJob) :
    TotalJobValue [J1, J2] = ((F32.Finite 0).Add J1.JobWeight).Add J2.JobWeight := rfl

theorem TotalJobValue_three (J1 J2 J3 : FUltraAssetManagerStartupJob) :
    TotalJobValue [J1, J2, J3] =
      (((F32.Finite 0).Add J1.JobWeight).Add J2.JobWeight).Add J3.JobWeight := rfl

theorem Round_three : Round 3 = F32.Finite 3 := by
  have h := Round_grid (n := 3 * 2 ^ 22) (e := 1) (by norm_num) (by norm_num) (by norm_num)
    (by norm_num)
  norm_num at h
  exact h

/-- A finite `float` sum of non-negative weights is at least the value it
started from. -/
theorem foldl_Add_ge (Jobs : List FUltraAssetManagerStartupJob) (Acc S : ℚ)
    (hAcc : 0 ≤ Acc) (hAccR : RoundQ Acc = Acc)
    (hW : ∀ J ∈ Jobs, ∃ w : ℚ, J.JobWeight = F32.Finite w ∧ 0 ≤ w ∧ Round w = F32.Finite w)
    (hS : Jobs.foldl (fun Total StartupJob => Total.Add StartupJob.JobWeight) (F32.Finite Acc) =
      F32.Finite S) : Acc ≤ S := by
  induction Jobs generalizing Acc with
  | nil =>
    have hSA : Acc = S := by simpa using hS
    exact le_of_eq hSA
  | cons J Jobs ih =>
    obtain ⟨w, hJw, hw0, hw⟩ := hW J (List.mem_cons_self _ _)
    have hWRest : ∀ K ∈ Jobs, ∃ w : ℚ, K.JobWeight = F32.Finite w ∧ 0 ≤ w ∧
        Round w = F32.Finite w := fun K hK => hW K (List.mem_cons_of_mem _ hK)
    have hsum0 : 0 ≤ Acc + w := by linarith
    have hAdd : (F32.Finite Acc).Add J.JobWeight = Round (Acc + w) := by
      rw [hJw]; simp only [F32.Add]
    rw [List.foldl_cons, hAdd] at hS
    have hfin : Round (Acc + w) = F32.Finite (RoundQ (Acc + w)) := by
      rcases Round_nonneg_cases hsum0 with h | h
      · rw [h, foldl_Add_PosInf Jobs hWRest] at hS
        cases hS
      · exact h
    rw [hfin] at hS
    have hstep : Acc ≤ RoundQ (Acc + w) := by
      have := RoundQ_mono hAcc (by linarith : Acc ≤ Acc + w)
      rwa [hAccR] at this
    exact le_trans hstep (ih (RoundQ (Acc + w)) (RoundQ_nonneg hsum0) (RoundQ_idem hsum0)
      hWRest hS)

/-- The finite `float` total of a non-empty list of positive weights is
positive. -/
theorem TotalJobValue_pos (Jobs : List FUltraAssetManagerStartupJob) (T : ℚ)
    (hne : Jobs ≠ [])
    (hpos : ∀ J ∈ Jobs, ∃ w : ℚ, J.JobWeight = F32.Finite w ∧ 0 < w ∧ Round w = F32.Finite w)
    (hT : TotalJobValue Jobs = F32.Finite T) : 0 < T := by
  cases Jobs with
  | nil => exact absurd rfl hne
  | cons J Jobs =>
    obtain ⟨w, hJw, hw0, hw⟩ := hpos J (List.mem_cons_self _ _)
    have hAdd : (F32.Finite 0).Add J.JobWeight = F32.Finite w := by
      rw [hJw]
      simp only [F32.Add, zero_add]
      exact hw
    unfold TotalJobValue at hT
    rw [List.foldl_cons, hAdd] at hT
    have := foldl_Add_ge Jobs w T (le_of_lt hw0) (Round_eq_Finite hw).1.symm
      (fun K hK => by
        obtain ⟨v, h1, h2, h3⟩ := hpos K (List.mem_cons_of_mem _ hK)
        exact ⟨v, h1, le_of_lt h2, h3⟩) hT
    linarith

/-- The reports of a progress-mode run whose weights are positive floats with
a finite `float` total and whose sub-progress values are numbers: finite
values between 0 and 1, ordered when every job's clamped sub-progress values
are. -/
theorem DoAllStartupJobs_reports_float (This : UUltraAssetManager)
    (hne : This.StartupJobs ≠ [])
    (hpos : ∀ J ∈ This.StartupJobs,
      ∃ w : ℚ, J.JobWeight = F32.Finite w ∧ 0 < w ∧ Round w = F32.Finite w)
    (hfin : ∃ T : ℚ, TotalJobValue This.StartupJobs = F32.Finite T)
    (hnum : ∀ J ∈ This.StartupJobs, ∀ P ∈ J.JobFunc.Substeps, P ≠ F32.NaN) :
    ∃ qs : List ℚ,
      ProgressReports (DoAllStartupJobs false This).Calls = qs.map F32.Finite ∧
      (∀ q ∈ qs, 0 ≤ q ∧ q ≤ 1) ∧
      ((∀ J ∈ This.StartupJobs, List.Chain' (fun A B => F32.Le A B = true)
          (J.JobFunc.Substeps.map (fun P => FMath.Clamp P (F32.Finite 0) (F32.Finite 1)))) →
        List.Pairwise (· ≤ ·) qs) := by
  obtain ⟨T, hT⟩ := hfin
  have hT0 : 0 < T := TotalJobValue_pos _ T hne hpos hT
  have hW : ∀ J ∈ This.StartupJobs,
      ∃ w : ℚ, J.JobWeight = F32.Finite w ∧ 0 ≤ w ∧ Round w = F32.Finite w := fun J hJ => by
    obtain ⟨v, h1, h2, h3⟩ := hpos J hJ
    exact ⟨v, h1, le_of_lt h2, h3⟩
  obtain ⟨_, qs, hqs, hqb, hqp⟩ := ProgressLoop_reports_float T hT0 This.StartupJobs 0 T
    le_rfl RoundQ_zero hW hnum hT le_rfl
  refine ⟨qs, ?_, ?_, hqp⟩
  · rw [DoAllStartupJobs_progress_Calls_float This hne, hT]
    exact hqs
  · intro q hq
    have := hqb q hq
    rw [zero_div, RoundQ_zero, div_self (ne_of_gt hT0), RoundQ_one] at this
    exact this

/-! ## The claims about the values reported -/

/-- C2, as stated, fails. A single job of weight 1 that reports sub-progress
0.75 and then 0.25 makes the sink receive 0.75, 0.25, 1.0, which is not
non-decreasing. And two jobs of weight 2^127, whose `float` total overflows to
infinity, make it receive 0 and then a NaN, which is not a non-decreasing
sequence of numbers either. -/
theorem DoAllStartupJobs_reports_decrease_float :
    (ProgressReports (DoAllStartupJobs false
          ⟨[STARTUP_JOB_WEIGHTED "A" ⟨[F32.Finite (3 / 4), F32.Finite (1 / 4)], false⟩
              (F32.Finite 1)]⟩).Calls =
        [F32.Finite (3 / 4), F32.Finite (1 / 4), F32.Finite 1] ∧
      ¬ ∃ qs : List ℚ,
          ProgressReports (DoAllStartupJobs false
            ⟨[STARTUP_JOB_WEIGHTED "A" ⟨[F32.Finite (3 / 4), F32.Finite (1 / 4)], false⟩
                (F32.Finite 1)]⟩).Calls = qs.map F32.Finite ∧
          List.Chain' (· ≤ ·) qs) ∧
      (ProgressReports (DoAllStartupJobs false
          ⟨[STARTUP_JOB_WEIGHTED "A" ⟨[], false⟩
              (F32.Finite 170141183460469231731687303715884105728),
            STARTUP_JOB_WEIGHTED "B" ⟨[], false⟩
              (F32.Finite 170141183460469231731687303715884105728)]⟩).Calls =
        [F32.Finite 0, F32.NaN] ∧
      ¬ ∃ qs : List ℚ,
          ProgressReports (DoAllStartupJobs false
            ⟨[STARTUP_JOB_WEIGHTED "A" ⟨[], false⟩
                (F32.Finite 170141183460469231731687303715884105728),
              STARTUP_JOB_WEIGHTED "B" ⟨[], false⟩
                (F32.Finite 170141183460469231731687303715884105728)]⟩).Calls =
              qs.map F32.Finite ∧
          List.Chain' (· ≤ ·) qs) := by
  have h1 : (F32.Finite 0).Add (F32.Finite 1) = F32.Finite 1 :=
    Add_eval (by norm_num [Round_one])
  have h2 : (F32.Finite 1).Div (F32.Finite 1) = F32.Finite 1 :=
    Div_eval (by norm_num) (by norm_num [Round_one])
  have h3 : (F32.Finite (3 / 4)).Mul (F32.Finite 1) = F32.Finite (3 / 4) :=
    Mul_eval (by norm_num [Round_three_quarters])
  have h4 : (F32.Finite (1 / 4)).Mul (F32.Finite 1) = F32.Finite (1 / 4) :=
    Mul_eval (by norm_num [Round_quarter])
  have h5 : (F32.Finite 0).Add (F32.Finite (3 / 4)) = F32.Finite (3 / 4) :=
    Add_eval (by norm_num [Round_three_quarters])
  have h6 : (F32.Finite 0).Add (F32.Finite (1 / 4)) = F32.Finite (1 / 4) :=
    Add_eval (by norm_num [Round_quarter])
  have h7 : (F32.Finite (3 / 4)).Div (F32.Finite 1) = F32.Finite (3 / 4) :=
    Div_eval (by norm_num) (by norm_num [Round_three_quarters])
  have h8 : (F32.Finite (1 / 4)).Div (F32.Finite 1) = F32.Finite (1 / 4) :=
    Div_eval (by norm_num) (by norm_num [Round_quarter])
  have hE1 : SubstepProgressLambda.Execute ⟨F32.Finite 0, F32.Finite 1, F32.Finite 1⟩
      (F32.Finite (3 / 4)) = Call.UpdateInitialGameContentLoadPercent (F32.Finite (3 / 4)) :=
    Execute_eval _ _ _ _ _ _ _ _ (Clamp_of_mem (by norm_num) (by norm_num)) h3 h5 h7
  have hE2 : SubstepProgressLambda.Execute ⟨F32.Finite 0, F32.Finite 1, F32.Finite 1⟩
      (F32.Finite (1 / 4)) = Call.UpdateInitialGameContentLoadPercent (F32.Finite (1 / 4)) :=
    Execute_eval _ _ _ _ _ _ _ _ (Clamp_of_mem (by norm_num) (by norm_num)) h4 h6 h8
  have hR1 : ProgressReports (DoAllStartupJobs false
      ⟨[STARTUP_JOB_WEIGHTED "A" ⟨[F32.Finite (3 / 4), F32.Finite (1 / 4)], false⟩
          (F32.Finite 1)]⟩).Calls =
      [F32.Finite (3 / 4), F32.Finite (1 / 4), F32.Finite 1] := by
    rw [DoAllStartupJobs_one_job]
    simp only [List.map_nil, List.map_cons, List.nil_append, List.cons_append]
    rw [h1, hE1, hE2, h2]
    rfl
  have g1 : (F32.Finite 0).Add (F32.Finite 170141183460469231731687303715884105728) =
      F32.Finite 170141183460469231731687303715884105728 :=
    Add_eval (by norm_num [Round_two_pow_127])
  have g2 : (F32.Finite 170141183460469231731687303715884105728).Add
      (F32.Finite 170141183460469231731687303715884105728) = F32.PosInf :=
    Add_eval (by norm_num [Round_two_pow_128])
  have hR2 : ProgressReports (DoAllStartupJobs false
      ⟨[STARTUP_JOB_WEIGHTED "A" ⟨[], false⟩
          (F32.Finite 170141183460469231731687303715884105728),
        STARTUP_JOB_WEIGHTED "B" ⟨[], false⟩
          (F32.Finite 170141183460469231731687303715884105728)]⟩).Calls =
      [F32.Finite 0, F32.NaN] := by
    rw [DoAllStartupJobs_two_jobs]
    simp only [List.map_nil, List.nil_append]
    rw [g1, g2, Div_PosInf, Div_PosInf_PosInf]
    rfl
  refine ⟨⟨hR1, ?_⟩, hR2, ?_⟩
  · rw [hR1]
    rintro ⟨qs, hqs, hch⟩
    have hq : qs = [3 / 4, 1 / 4, 1] := by
      have hinj : Function.Injective F32.Finite := fun a b h => by injection h
      apply List.map_injective_iff.mpr hinj
      simpa using hqs.symm
    subst hq
    simp only [List.chain'_cons] at hch
    norm_num at hch
  · rw [hR2]
    rintro ⟨qs, hqs, _⟩
    match qs, hqs with
    | [], h => cases h
    | [_], h => cases h
    | _ :: _ :: _, h =>
      simp only [List.map_cons] at h
      injection h with _ h
      injection h with h _
      cases h

/-- C2, amended: in progress-reporting mode, for every job list whose weights
are positive floats with a finite `float` total (their sum does not overflow)
and in which every job's sub-progress values are numbers that, clamped to
[0, 1], are non-decreasing, every value passed to the progress sink is a
finite `float` and successive values are non-decreasing (whether or not a job
fails). -/
theorem DoAllStartupJobs_reports_monotone_float (This : UUltraAssetManager)
    (hpos : ∀ J ∈ This.StartupJobs,
      ∃ w : ℚ, J.JobWeight = F32.Finite w ∧ 0 < w ∧ Round w = F32.Finite w)
    (hfin : ∃ T : ℚ, TotalJobValue This.StartupJobs = F32.Finite T)
    (hnum : ∀ J ∈ This.StartupJobs, ∀ P ∈ J.JobFunc.Substeps, P ≠ F32.NaN)
    (hsub : ∀ J ∈ This.StartupJobs, List.Chain' (fun A B => F32.Le A B = true)
      (J.JobFunc.Substeps.map (fun P => FMath.Clamp P (F32.Finite 0) (F32.Finite 1)))) :
    ∃ qs : List ℚ,
      ProgressReports (DoAllStartupJobs false This).Calls = qs.map F32.Finite ∧
      List.Chain' (· ≤ ·) qs := by
  by_cases hne : This.StartupJobs = []
  · exact ⟨[1], by simp [DoAllStartupJobs, hne, ProgressReports]⟩
  · obtain ⟨qs, hqs, _, hp⟩ := DoAllStartupJobs_reports_float This hne hpos hfin hnum
    exact ⟨qs, hqs, List.chain'_iff_pairwise.mpr (hp hsub)⟩

/-- C2, amended, at a two-job list (weights 1 and 3) whose first job reports
0.25, 0.25, 0.75 and whose second reports values that only the clamp puts in
order. -/
theorem DoAllStartupJobs_reports_monotone_float_witness :
    ∃ qs : List ℚ,
      ProgressReports (DoAllStartupJobs false
        ⟨[STARTUP_JOB_WEIGHTED "A"
            ⟨[F32.Finite (1 / 4), F32.Finite (1 / 4), F32.Finite (3 / 4)], false⟩ (F32.Finite 1),
          STARTUP_JOB_WEIGHTED "B"
            ⟨[F32.Finite (-1), F32.NegInf, F32.Finite (1 / 2), F32.Finite 3, F32.PosInf], false⟩
            (F32.Finite 3)]⟩).Calls = qs.map F32.Finite ∧
      List.Chain' (· ≤ ·) qs := by
  have h1 : (F32.Finite 0).Add (F32.Finite 1) = F32.Finite 1 :=
    Add_eval (by norm_num [Round_one])
  have h2 : (F32.Finite 1).Add (F32.Finite 3) = F32.Finite 4 :=
    Add_eval (by norm_num [Round_four])
  apply DoAllStartupJobs_reports_monotone_float
  · intro J hJ
    simp only [List.mem_cons, List.mem_singleton, List.not_mem_nil, or_false] at hJ
    rcases hJ with rfl | rfl
    · exact ⟨1, rfl, by norm_num, Round_one⟩
    · exact ⟨3, rfl, by norm_num, Round_three⟩
  · refine ⟨4, ?_⟩
    rw [TotalJobValue_two]
    simp only [STARTUP_JOB_WEIGHTED]
    rw [h1, h2]
  · intro J hJ P hP
    simp only [List.mem_cons, List.mem_singleton, List.not_mem_nil, or_false] at hJ
    rcases hJ with rfl | rfl <;>
      simp only [STARTUP_JOB_WEIGHTED, List.mem_cons, List.mem_singleton, List.not_mem_nil,
        or_false] at hP
    · rcases hP with rfl | rfl | rfl <;> simp
    · rcases hP with rfl | rfl | rfl | rfl | rfl <;> simp
  · intro J hJ
    simp only [List.mem_cons, List.mem_singleton, List.not_mem_nil, or_false] at hJ
    rcases hJ with rfl | rfl
    · simp only [STARTUP_JOB_WEIGHTED, List.map_cons, List.map_nil]
      rw [Clamp_of_mem (by norm_num : (0 : ℚ) < 1 / 4) (by norm_num),
        Clamp_of_mem (by norm_num : (0 : ℚ) < 3 / 4) (by norm_num)]
      simp [F32.Le]
      norm_num
    · simp only [STARTUP_JOB_WEIGHTED, List.map_cons, List.map_nil]
      rw [Clamp_of_nonpos (by norm_num : (-1 : ℚ) ≤ 0), Clamp_NegInf,
        Clamp_of_mem (by norm_num : (0 : ℚ) < 1 / 2) (by norm_num),
        Clamp_of_one_le (by norm_num : (1 : ℚ) ≤ 3), Clamp_PosInf]
      simp [F32.Le]
      norm_num

/-- C3, as stated, fails on the `float` the code computes: for jobs A (weight
2^24) and B (weight 1), which make a non-empty list of positive total weight,
the `float` total is 2^24 (2^24 + 1 is not a float and rounds to 2^24), and
the value reported after A is 1, which is neither the quotient
2^24 / (2^24 + 1) of the claim nor the float nearest to it. -/
theorem DoAllStartupJobs_completion_report_not_exact_quotient :
    (0 : ℚ) < 16777216 + 1 ∧
      TotalJobValue
          [STARTUP_JOB_WEIGHTED "A" ⟨[], false⟩ (F32.Finite 16777216),
            STARTUP_JOB_WEIGHTED "B" ⟨[], false⟩ (F32.Finite 1)] = F32.Finite 16777216 ∧
      (DoAllStartupJobs false
          ⟨[STARTUP_JOB_WEIGHTED "A" ⟨[], false⟩ (F32.Finite 16777216),
            STARTUP_JOB_WEIGHTED "B" ⟨[], false⟩ (F32.Finite 1)]⟩).Calls =
        [Call.JobFunc "A", Call.UpdateInitialGameContentLoadPercent (F32.Finite 1),
          Call.JobFunc "B", Call.UpdateInitialGameContentLoadPercent (F32.Finite 1)] ∧
      F32.Finite 1 ≠ F32.Finite (16777216 / (16777216 + 1)) ∧
      F32.Finite 1 ≠ Round (16777216 / (16777216 + 1)) := by
  have h1 : (F32.Finite 0).Add (F32.Finite 16777216) = F32.Finite 16777216 :=
    Add_eval (by norm_num [Round_two_pow_24])
  have h2 : (F32.Finite 16777216).Add (F32.Finite 1) = F32.Finite 16777216 :=
    Add_eval (by norm_num [Round_two_pow_24_add_one])
  have h3 : (F32.Finite 16777216).Div (F32.Finite 16777216) = F32.Finite 1 :=
    Div_eval (by norm_num) (by norm_num [Round_one])
  refine ⟨by norm_num, ?_, ?_, ?_, ?_⟩
  · rw [TotalJobValue_two]
    simp only [STARTUP_JOB_WEIGHTED]
    rw [h1, h2]
  · rw [DoAllStartupJobs_two_jobs]
    simp only [List.map_nil, List.nil_append]
    rw [h1, h2, h3]
  · intro h
    injection h with h
    norm_num at h
  · rw [show (16777216 / (16777216 + 1) : ℚ) = 16777216 / 16777217 by norm_num,
      Round_claimed_quotient]
    intro h
    injection h with h
    norm_num at h

/-- C3, amended: in progress-reporting mode, for every non-empty job list
whose jobs all return, `DoAllStartupJobs` returns, enters every job's callback
once, in list order, and for every position `k` the calls made are: the calls
of the first `k` jobs, the entry of job `k`, its sub-progress reports, then at
once the report of the `float` quotient of the `float` sum of the weights up
to job `k` by the `float` sum of all weights (each sum accumulated in list
order from `0.0f`), then the calls of the jobs after `k`. -/
theorem DoAllStartupJobs_completion_reports_float (This : UUltraAssetManager)
    (hne : This.StartupJobs ≠ [])
    (hok : ∀ J ∈ This.StartupJobs, J.JobFunc.Fails = false)
    (k : Nat) (hk : k < This.StartupJobs.length) :
    (DoAllStartupJobs false This).Returned = true ∧
      JobsExecuted (DoAllStartupJobs false This).Calls = This.StartupJobs.map (·.JobName) ∧
      ∃ Pre Post : List Call,
        (DoAllStartupJobs false This).Calls =
          Pre ++ Call.JobFunc This.StartupJobs[k].JobName ::
            (This.StartupJobs[k].JobFunc.Substeps.map
                (SubstepProgressLambda.Execute
                  ⟨TotalJobValue (This.StartupJobs.take k),
                    This.StartupJobs[k].JobWeight,
                    TotalJobValue This.StartupJobs⟩) ++
              Call.UpdateInitialGameContentLoadPercent
                  ((TotalJobValue (This.StartupJobs.take (k + 1))).Div
                    (TotalJobValue This.StartupJobs)) :: Post) ∧
        JobsExecuted Pre = (This.StartupJobs.take k).map (·.JobName) ∧
        JobsExecuted Post = (This.StartupJobs.drop (k + 1)).map (·.JobName) := by
  have hJE : JobsExecuted (DoAllStartupJobs false This).Calls =
      This.StartupJobs.map (·.JobName) := by
    rw [DoAllStartupJobs_progress_Calls_float This hne]
    exact ProgressLoop_JobsExecuted_float _ _ _ hok
  refine ⟨?_, hJE, ?_⟩
  · rw [DoAllStartupJobs_progress_Returned_float This hne]
    exact (ProgressLoop_returned_float _ _ _).mpr hok
  · obtain ⟨Pre, Post, hC, hPre, _, hPo⟩ :=
      ProgressLoop_segment_float (TotalJobValue This.StartupJobs) This.StartupJobs
        (F32.Finite 0) k hk (fun J hJ => hok J (List.mem_of_mem_take hJ))
    obtain ⟨Post2, hP2⟩ := hPo (hok _ (List.getElem_mem _))
    rw [← DoAllStartupJobs_progress_Calls_float This hne, hP2] at hC
    refine ⟨Pre, Post2, hC, hPre, ?_⟩
    have hsplit : This.StartupJobs.map (·.JobName) =
        (This.StartupJobs.take k).map (·.JobName) ++
          This.StartupJobs[k].JobName :: (This.StartupJobs.drop (k + 1)).map (·.JobName) := by
      have h := congrArg (List.map (·.JobName)) (List.take_append_drop k This.StartupJobs).symm
      rw [List.drop_eq_getElem_cons hk, List.map_append, List.map_cons] at h
      exact h
    rw [hC, hsplit] at hJE
    simp only [JobsExecuted_append_float, JobsExecuted, JobsExecuted_map_Execute_float, hPre,
      List.nil_append] at hJE
    have h2 := List.append_cancel_left hJE
    exact (List.cons.inj h2).2

/-- C3, amended, at the spec's example: jobs A (weight 1), B (weight 3), C
(weight 1) that report no sub-progress make the sink receive `0.2f`, `0.8f`
and `1.0f` (13421773 / 2^26, 13421773 / 2^24 and 1), each right after its job. -/
theorem DoAllStartupJobs_completion_reports_float_witness :
    (DoAllStartupJobs false
        ⟨[STARTUP_JOB_WEIGHTED "A" ⟨[], false⟩ (F32.Finite 1),
          STARTUP_JOB_WEIGHTED "B" ⟨[], false⟩ (F32.Finite 3),
          STARTUP_JOB_WEIGHTED "C" ⟨[], false⟩ (F32.Finite 1)]⟩).Calls =
        [Call.JobFunc "A",
          Call.UpdateInitialGameContentLoadPercent (F32.Finite (13421773 / 67108864)),
          Call.JobFunc "B",
          Call.UpdateInitialGameContentLoadPercent (F32.Finite (13421773 / 16777216)),
          Call.JobFunc "C", Call.UpdateInitialGameContentLoadPercent (F32.Finite 1)] ∧
      JobsExecuted (DoAllStartupJobs false
        ⟨[STARTUP_JOB_WEIGHTED "A" ⟨[], false⟩ (F32.Finite 1),
          STARTUP_JOB_WEIGHTED "B" ⟨[], false⟩ (F32.Finite 3),
          STARTUP_JOB_WEIGHTED "C" ⟨[], false⟩ (F32.Finite 1)]⟩).Calls = ["A", "B", "C"] := by
  have h1 : (F32.Finite 0).Add (F32.Finite 1) = F32.Finite 1 :=
    Add_eval (by norm_num [Round_one])
  have h2 : (F32.Finite 1).Add (F32.Finite 3) = F32.Finite 4 :=
    Add_eval (by norm_num [Round_four])
  have h3 : (F32.Finite 4).Add (F32.Finite 1) = F32.Finite 5 :=
    Add_eval (by norm_num [Round_five])
  have h4 : (F32.Finite 1).Div (F32.Finite 5) = F32.Finite (13421773 / 67108864) :=
    Div_eval (by norm_num) Round_one_fifth
  have h5 : (F32.Finite 4).Div (F32.Finite 5) = F32.Finite (13421773 / 16777216) :=
    Div_eval (by norm_num) Round_four_fifths
  have h6 : (F32.Finite 5).Div (F32.Finite 5) = F32.Finite 1 :=
    Div_eval (by norm_num) (by norm_num [Round_one])
  refine ⟨?_, ?_⟩
  · rw [DoAllStartupJobs_three_jobs]
    simp only [List.map_nil, List.nil_append]
    rw [h1, h2, h3, h4, h5, h6]
  · exact (DoAllStartupJobs_completion_reports_float
      ⟨[STARTUP_JOB_WEIGHTED "A" ⟨[], false⟩ (F32.Finite 1),
        STARTUP_JOB_WEIGHTED "B" ⟨[], false⟩ (F32.Finite 3),
        STARTUP_JOB_WEIGHTED "C" ⟨[], false⟩ (F32.Finite 1)]⟩
      (by simp) (by simp [STARTUP_JOB_WEIGHTED]) 1 (by simp)).2.1

/-- C4, as stated, fails on the `float` the code computes: for jobs A (weight
1e8), B (weight 1, reporting sub-progress 0.5) and C (weight -1e8) the exact
total is 1 but the `float` total is 0 (1e8 + 1 rounds to 1e8), so that the
sink receives an infinity when B reports, where the claim gives
(1e8 + 0.5 * 1) / 1. -/
theorem DoAllStartupJobs_substep_report_not_exact_quotient :
    (100000000 + 1 + -100000000 : ℚ) = 1 ∧
      TotalJobValue
          [STARTUP_JOB_WEIGHTED "A" ⟨[], false⟩ (F32.Finite 100000000),
            STARTUP_JOB_WEIGHTED "B" ⟨[F32.Finite (1 / 2)], false⟩ (F32.Finite 1),
            STARTUP_JOB_WEIGHTED "C" ⟨[], false⟩ (F32.Finite (-100000000))] = F32.Finite 0 ∧
      (DoAllStartupJobs false
          ⟨[STARTUP_JOB_WEIGHTED "A" ⟨[], false⟩ (F32.Finite 100000000),
            STARTUP_JOB_WEIGHTED "B" ⟨[F32.Finite (1 / 2)], false⟩ (F32.Finite 1),
            STARTUP_JOB_WEIGHTED "C" ⟨[], false⟩ (F32.Finite (-100000000))]⟩).Calls =
        [Call.JobFunc "A", Call.UpdateInitialGameContentLoadPercent F32.PosInf,
          Call.JobFunc "B", Call.UpdateInitialGameContentLoadPercent F32.PosInf,
          Call.UpdateInitialGameContentLoadPercent F32.PosInf,
          Call.JobFunc "C", Call.UpdateInitialGameContentLoadPercent F32.NaN] ∧
      F32.PosInf ≠ F32.Finite ((100000000 + 1 / 2 * 1) / (100000000 + 1 + -100000000)) := by
  have h1 : (F32.Finite 0).Add (F32.Finite 100000000) = F32.Finite 100000000 :=
    Add_eval (by norm_num [Round_1e8])
  have h2 : (F32.Finite 100000000).Add (F32.Finite 1) = F32.Finite 100000000 :=
    Add_eval (by norm_num [Round_1e8_add_one])
  have h3 : (F32.Finite 100000000).Add (F32.Finite (-100000000)) = F32.Finite 0 :=
    Add_eval (by norm_num [Round_zero])
  have h4 : (F32.Finite 100000000).Div (F32.Finite 0) = F32.PosInf :=
    Div_zero_of_pos (by norm_num)
  have h5 : FMath.Clamp (F32.Finite (1 / 2)) (F32.Finite 0) (F32.Finite 1) =
      F32.Finite (1 / 2) := Clamp_of_mem (by norm_num) (by norm_num)
  have h6 : (F32.Finite (1 / 2)).Mul (F32.Finite 1) = F32.Finite (1 / 2) :=
    Mul_eval (by norm_num [Round_half])
  have h7 : (F32.Finite 100000000).Add (F32.Finite (1 / 2)) = F32.Finite 100000000 :=
    Add_eval (by
      rw [show (100000000 + 1 / 2 : ℚ) = 200000001 / 2 by norm_num]
      exact Round_1e8_add_half)
  have hE : SubstepProgressLambda.Execute
      ⟨F32.Finite 100000000, F32.Finite 1, F32.Finite 0⟩ (F32.Finite (1 / 2)) =
      Call.UpdateInitialGameContentLoadPercent F32.PosInf :=
    Execute_eval _ _ _ _ _ _ _ _ h5 h6 h7 h4
  refine ⟨by norm_num, ?_, ?_, ?_⟩
  · rw [TotalJobValue_three]
    simp only [STARTUP_JOB_WEIGHTED]
    rw [h1, h2, h3]
  · rw [DoAllStartupJobs_three_jobs]
    simp only [List.map_nil, List.map_cons, List.nil_append, List.cons_append]
    rw [h1, h2, h3, h4, hE, Div_zero_zero]
  · intro h
    cases h

/-- C4, amended: in progress-reporting mode, when the jobs before position `i`
return, the entry of job `i` is followed at once by one sink call per
sub-progress value `P` the job reports, in order, each with the `float` value
of `(a + clamp(P, 0, 1) * w_i) / t`, every operation rounded to `float`,
where `a` is the `float` sum of the weights before job `i` and `t` the `float`
sum of all weights (each accumulated in list order from `0.0f`). -/
theorem DoAllStartupJobs_substep_reports_float (This : UUltraAssetManager)
    (i : Nat) (hi : i < This.StartupJobs.length)
    (hprev : ∀ J ∈ This.StartupJobs.take i, J.JobFunc.Fails = false) :
    ∃ Pre Post : List Call,
      (DoAllStartupJobs false This).Calls =
        Pre ++ Call.JobFunc This.StartupJobs[i].JobName ::
          (This.StartupJobs[i].JobFunc.Substeps.map
              (fun P => Call.UpdateInitialGameContentLoadPercent
                (((TotalJobValue (This.StartupJobs.take i)).Add
                    ((FMath.Clamp P (F32.Finite 0) (F32.Finite 1)).Mul
                      This.StartupJobs[i].JobWeight)).Div
                  (TotalJobValue This.StartupJobs))) ++
            Post) ∧
      JobsExecuted Pre = (This.StartupJobs.take i).map (·.JobName) := by
  have hne : This.StartupJobs ≠ [] := List.ne_nil_of_length_pos (by omega)
  obtain ⟨Pre, Post, hC, hPre, _, _⟩ :=
    ProgressLoop_segment_float (TotalJobValue This.StartupJobs) This.StartupJobs
      (F32.Finite 0) i hi hprev
  refine ⟨Pre, Post, ?_, hPre⟩
  rw [DoAllStartupJobs_progress_Calls_float This hne, hC]
  rfl

/-- C4, amended, at the spec's example: in a two-job list with both weights 1,
the first job reporting sub-progress 0.5 makes the sink receive 0.25 at that
moment. -/
theorem DoAllStartupJobs_substep_reports_float_witness :
    ∃ Pre Post : List Call,
      (DoAllStartupJobs false
          ⟨[STARTUP_JOB "A" ⟨[F32.Finite (1 / 2)], false⟩, STARTUP_JOB "B" ⟨[], false⟩]⟩).Calls =
        Pre ++ Call.JobFunc "A" ::
          ([Call.UpdateInitialGameContentLoadPercent (F32.Finite (1 / 4))] ++ Post) ∧
      JobsExecuted Pre = [] := by
  obtain ⟨Pre, Post, hC, hPre⟩ := DoAllStartupJobs_substep_reports_float
    ⟨[STARTUP_JOB "A" ⟨[F32.Finite (1 / 2)], false⟩, STARTUP_JOB "B" ⟨[], false⟩]⟩ 0
    (by simp) (by simp)
  have h1 : (F32.Finite 0).Add (F32.Finite 1) = F32.Finite 1 :=
    Add_eval (by norm_num [Round_one])
  have h2 : (F32.Finite 1).Add (F32.Finite 1) = F32.Finite 2 :=
    Add_eval (by norm_num [Round_two])
  have h5 : FMath.Clamp (F32.Finite (1 / 2)) (F32.Finite 0) (F32.Finite 1) =
      F32.Finite (1 / 2) := Clamp_of_mem (by norm_num) (by norm_num)
  have h6 : (F32.Finite (1 / 2)).Mul (F32.Finite 1) = F32.Finite (1 / 2) :=
    Mul_eval (by norm_num [Round_half])
  have h7 : (F32.Finite 0).Add (F32.Finite (1 / 2)) = F32.Finite (1 / 2) :=
    Add_eval (by norm_num [Round_half])
  have h8 : (F32.Finite (1 / 2)).Div (F32.Finite 2) = F32.Finite (1 / 4) :=
    Div_eval (by norm_num) (by norm_num [Round_quarter])
  have hT : TotalJobValue
      [STARTUP_JOB "A" ⟨[F32.Finite (1 / 2)], false⟩, STARTUP_JOB "B" ⟨[], false⟩] =
      F32.Finite 2 := by
    rw [TotalJobValue_two]
    simp only [STARTUP_JOB, STARTUP_JOB_WEIGHTED]
    rw [h1, h2]
  refine ⟨Pre, Post, ?_, by simpa using hPre⟩
  rw [hC]
  simp only [List.take_zero, List.getElem_cons_zero, List.map_cons, List.map_nil]
  rw [hT]
  simp only [STARTUP_JOB, STARTUP_JOB_WEIGHTED, TotalJobValue, List.foldl_nil, List.map_cons,
    List.map_nil]
  rw [h5, h6, h7, h8]

/-- C6, as stated, fails on the `float` the code computes: two jobs of weight
2^127, a positive float, have the `float` total 2^127 + 2^127 = infinity, and
the sink receives 0 after the first job and a NaN after the second, which is
not a value in [0, 1]. -/
theorem DoAllStartupJobs_overflow_reports_nan :
    (∀ J ∈ [STARTUP_JOB_WEIGHTED "A" ⟨[], false⟩
              (F32.Finite 170141183460469231731687303715884105728),
            STARTUP_JOB_WEIGHTED "B" ⟨[], false⟩
              (F32.Finite 170141183460469231731687303715884105728)],
        ∃ w : ℚ, J.JobWeight = F32.Finite w ∧ 0 < w ∧ Round w = F32.Finite w) ∧
      ProgressReports (DoAllStartupJobs false
          ⟨[STARTUP_JOB_WEIGHTED "A" ⟨[], false⟩
              (F32.Finite 170141183460469231731687303715884105728),
            STARTUP_JOB_WEIGHTED "B" ⟨[], false⟩
              (F32.Finite 170141183460469231731687303715884105728)]⟩).Calls =
        [F32.Finite 0, F32.NaN] ∧
      ¬ ∀ v ∈ ProgressReports (DoAllStartupJobs false
          ⟨[STARTUP_JOB_WEIGHTED "A" ⟨[], false⟩
              (F32.Finite 170141183460469231731687303715884105728),
            STARTUP_JOB_WEIGHTED "B" ⟨[], false⟩
              (F32.Finite 170141183460469231731687303715884105728)]⟩).Calls,
          ∃ q : ℚ, v = F32.Finite q ∧ 0 ≤ q ∧ q ≤ 1 := by
  have h1 : (F32.Finite 0).Add (F32.Finite 170141183460469231731687303715884105728) =
      F32.Finite 170141183460469231731687303715884105728 :=
    Add_eval (by norm_num [Round_two_pow_127])
  have h2 : (F32.Finite 170141183460469231731687303715884105728).Add
      (F32.Finite 170141183460469231731687303715884105728) = F32.PosInf :=
    Add_eval (by norm_num [Round_two_pow_128])
  have hR : ProgressReports (DoAllStartupJobs false
      ⟨[STARTUP_JOB_WEIGHTED "A" ⟨[], false⟩
          (F32.Finite 170141183460469231731687303715884105728),
        STARTUP_JOB_WEIGHTED "B" ⟨[], false⟩
          (F32.Finite 170141183460469231731687303715884105728)]⟩).Calls =
      [F32.Finite 0, F32.NaN] := by
    rw [DoAllStartupJobs_two_jobs]
    simp only [List.map_nil, List.nil_append]
    rw [h1, h2, Div_PosInf, Div_PosInf_PosInf]
    rfl
  refine ⟨?_, hR, ?_⟩
  · intro J hJ
    simp only [List.mem_cons, List.mem_singleton, List.not_mem_nil, or_false] at hJ
    rcases hJ with rfl | rfl <;>
      exact ⟨170141183460469231731687303715884105728, rfl, by norm_num, Round_two_pow_127⟩
  · rw [hR]
    intro h
    obtain ⟨q, hq, _⟩ := h F32.NaN (by simp)
    cases hq

/-- C6, amended: for every job list whose weights are positive floats with a
finite `float` total (their sum does not overflow), in either mode (in
dedicated-server mode the list being as `STARTUP_JOB_WEIGHTED` populates it)
and whatever numbers the jobs report as sub-progress, every value passed to
the progress sink is a finite `float` in the closed interval [0, 1]. -/
theorem DoAllStartupJobs_reports_in_unit_interval_float (Server : Bool)
    (This : UUltraAssetManager)
    (hpos : ∀ J ∈ This.StartupJobs,
      ∃ w : ℚ, J.JobWeight = F32.Finite w ∧ 0 < w ∧ Round w = F32.Finite w)
    (hfin : ∃ T : ℚ, TotalJobValue This.StartupJobs = F32.Finite T)
    (hnum : ∀ J ∈ This.StartupJobs, ∀ P ∈ J.JobFunc.Substeps, P ≠ F32.NaN)
    (hunb : Server = true → ∀ J ∈ This.StartupJobs, J.SubstepProgressDelegate = none) :
    ∀ v ∈ ProgressReports (DoAllStartupJobs Server This).Calls,
      ∃ q : ℚ, v = F32.Finite q ∧ 0 ≤ q ∧ q ≤ 1 := by
  intro v hv
  cases Server with
  | true =>
    rw [DoAllStartupJobs_server_Calls_float, ServerLoop_no_reports_float _ (hunb rfl)] at hv
    simp at hv
  | false =>
    by_cases hne : This.StartupJobs = []
    · simp [DoAllStartupJobs, hne, ProgressReports] at hv
      exact ⟨1, hv, by norm_num, le_refl _⟩
    · obtain ⟨qs, hqs, hb, _⟩ := DoAllStartupJobs_reports_float This hne hpos hfin hnum
      rw [hqs] at hv
      obtain ⟨q, hq, rfl⟩ := List.mem_map.mp hv
      exact ⟨q, rfl, hb q hq⟩

/-- C6, amended, at a two-job list (weights 1 and 3) whose first job reports
sub-progress -7, 5 and infinity: the sink receives 0, 1/4, 1/4, 1/4, 1. -/
theorem DoAllStartupJobs_reports_in_unit_interval_float_witness :
    ProgressReports (DoAllStartupJobs false
        ⟨[STARTUP_JOB_WEIGHTED "A" ⟨[F32.Finite (-7), F32.Finite 5, F32.PosInf], false⟩
            (F32.Finite 1),
          STARTUP_JOB_WEIGHTED "B" ⟨[], false⟩ (F32.Finite 3)]⟩).Calls =
        [F32.Finite 0, F32.Finite (1 / 4), F32.Finite (1 / 4), F32.Finite (1 / 4),
          F32.Finite 1] ∧
      ∀ v ∈ ProgressReports (DoAllStartupJobs false
        ⟨[STARTUP_JOB_WEIGHTED "A" ⟨[F32.Finite (-7), F32.Finite 5, F32.PosInf], false⟩
            (F32.Finite 1),
          STARTUP_JOB_WEIGHTED "B" ⟨[], false⟩ (F32.Finite 3)]⟩).Calls,
        ∃ q : ℚ, v = F32.Finite q ∧ 0 ≤ q ∧ q ≤ 1 := by
  have h1 : (F32.Finite 0).Add (F32.Finite 1) = F32.Finite 1 :=
    Add_eval (by norm_num [Round_one])
  have h2 : (F32.Finite 1).Add (F32.Finite 3) = F32.Finite 4 :=
    Add_eval (by norm_num [Round_four])
  have h3 : (F32.Finite 0).Mul (F32.Finite 1) = F32.Finite 0 :=
    Mul_eval (by norm_num [Round_zero])
  have h4 : (F32.Finite 1).Mul (F32.Finite 1) = F32.Finite 1 :=
    Mul_eval (by norm_num [Round_one])
  have h5 : (F32.Finite 0).Add (F32.Finite 0) = F32.Finite 0 :=
    Add_eval (by norm_num [Round_zero])
  have h6 : (F32.Finite 0).Div (F32.Finite 4) = F32.Finite 0 :=
    Div_eval (by norm_num) (by norm_num [Round_zero])
  have h7 : (F32.Finite 1).Div (F32.Finite 4) = F32.Finite (1 / 4) :=
    Div_eval (by norm_num) Round_quarter
  have h8 : (F32.Finite 4).Div (F32.Finite 4) = F32.Finite 1 :=
    Div_eval (by norm_num) (by norm_num [Round_one])
  have hE1 : SubstepProgressLambda.Execute ⟨F32.Finite 0, F32.Finite 1, F32.Finite 4⟩
      (F32.Finite (-7)) = Call.UpdateInitialGameContentLoadPercent (F32.Finite 0) :=
    Execute_eval _ _ _ _ _ _ _ _ (Clamp_of_nonpos (by norm_num)) h3 h5 h6
  have hE2 : SubstepProgressLambda.Execute ⟨F32.Finite 0, F32.Finite 1, F32.Finite 4⟩
      (F32.Finite 5) = Call.UpdateInitialGameContentLoadPercent (F32.Finite (1 / 4)) :=
    Execute_eval _ _ _ _ _ _ _ _ (Clamp_of_one_le (by norm_num)) h4 h1 h7
  have hE3 : SubstepProgressLambda.Execute ⟨F32.Finite 0, F32.Finite 1, F32.Finite 4⟩
      F32.PosInf = Call.UpdateInitialGameContentLoadPercent (F32.Finite (1 / 4)) :=
    Execute_eval _ _ _ _ _ _ _ _ Clamp_PosInf h4 h1 h7
  have hT : TotalJobValue
      [STARTUP_JOB_WEIGHTED "A" ⟨[F32.Finite (-7), F32.Finite 5, F32.PosInf], false⟩
          (F32.Finite 1),
        STARTUP_JOB_WEIGHTED "B" ⟨[], false⟩ (F32.Finite 3)] = F32.Finite 4 := by
    rw [TotalJobValue_two]
    simp only [STARTUP_JOB_WEIGHTED]
    rw [h1, h2]
  refine ⟨?_, ?_⟩
  · rw [DoAllStartupJobs_two_jobs]
    simp only [List.map_nil, List.map_cons, List.nil_append, List.cons_append]
    rw [h1, h2, hE1, hE2, hE3, h7, h8]
    rfl
  · apply DoAllStartupJobs_reports_in_unit_interval_float false
    · intro J hJ
      simp only [List.mem_cons, List.mem_singleton, List.not_mem_nil, or_false] at hJ
      rcases hJ with rfl | rfl
      · exact ⟨1, rfl, by norm_num, Round_one⟩
      · exact ⟨3, rfl, by norm_num, Round_three⟩
    · exact ⟨4, hT⟩
    · intro J hJ P hP
      simp only [List.mem_cons, List.mem_singleton, List.not_mem_nil, or_false] at hJ
      rcases hJ with rfl | rfl
      · simp only [STARTUP_JOB_WEIGHTED, List.mem_cons, List.mem_singleton, List.not_mem_nil,
          or_false] at hP
        rcases hP with rfl | rfl | rfl <;> simp
      · simp [STARTUP_JOB_WEIGHTED] at hP
    · intro h
      cases h

end AssetManagerBinary32
